import Mathlib

/-!
# Verification of the CIPhR ingestion reconciliation engine

Shallow embedding of the result-processing, duplicate-filtering, search
expansion, schema resolution, content windowing and store-writing logic of
the CIPhR repository (`ciphr/src/result_processor.py`, `ciphr/src/utils.py`,
`ciphr/src/data_processor.py`, `ciphr/ciphr_hybrid.py`,
`ciphr/config/config.py`), together with theorems settling the frozen
claims about that logic.

Python strings are modelled as Lean `String` (a wrapper around `List Char`);
Python `set`s of strings as `List String` with membership; the file system
and the current date are passed explicitly as parameters.  JSON numbers are
modelled as integers.
-/

namespace CIPhR

/-! ## Python string primitives

Each `py…` definition models the corresponding Python `str` operation on the
underlying character list. -/

/-- Python whitespace predicate (`\s`, `str.strip`, `str.split`) for the
ASCII range. -/
def pyIsSpace (c : Char) : Bool :=
  c = ' ' || c = '\t' || c = '\n' || c = '\r' || c = '\x0b' || c = '\x0c'

/-- Remove trailing whitespace from a character list (right half of
`str.strip`). -/
def stripRight : List Char → List Char
  | [] => []
  | c :: cs =>
    let r := stripRight cs
    if r = [] ∧ pyIsSpace c then [] else c :: r

/-- Character-list model of `str.strip()`: drop leading and trailing
whitespace. -/
def stripL (l : List Char) : List Char :=
  stripRight (l.dropWhile pyIsSpace)

/-- Python `str.strip()`. -/
def pyStrip (s : String) : String :=
  String.mk (stripL s.data)

/-- Python `str.lower()` (ASCII). -/
def pyLower (s : String) : String :=
  String.mk (s.data.map Char.toLower)

/-- Python `s.replace("\n", " ")`. -/
def pyReplaceNl (s : String) : String :=
  String.mk (s.data.map fun c => if c = '\n' then ' ' else c)

/-- Python `needle in haystack` for strings (substring containment). -/
def strContains (haystack needle : String) : Bool :=
  decide (needle.data <:+: haystack.data)

/-- Python `s.split()` — split on whitespace runs, discarding empties. -/
def pyWords (s : String) : List String :=
  ((s.data.splitOnP pyIsSpace).filter (· ≠ [])).map String.mk

/-- Python `s.split(c)` for a single-character separator. -/
def pySplitChar (c : Char) (s : String) : List String :=
  (s.data.splitOn c).map String.mk

/-- Python `sep.join(parts)`. -/
def pyJoin (sep : String) (parts : List String) : String :=
  String.mk (List.intercalate sep.data (parts.map String.data))

/-- Python `s[:n]` for `n ≥ 0`. -/
def pyTake (n : Nat) (s : String) : String :=
  String.mk (s.data.take n)

/-- Python `s[n:]` for `n ≥ 0`. -/
def pyDrop (n : Nat) (s : String) : String :=
  String.mk (s.data.drop n)

/-- Python `s.startswith(p)`. -/
def pyStartsWith (s p : String) : Bool :=
  p.data.isPrefixOf s.data

/-- Index (from the start) of the last occurrence of `c` in `l`
(`str.rfind`), or `none`. -/
def rfindChar (c : Char) (l : List Char) : Option Nat :=
  match l with
  | [] => none
  | d :: rest =>
    match rfindChar c rest with
    | some i => some (i + 1)
    | none => if d = c then some 0 else none

/-- Model of `os.path.splitext` (posixpath, `sep = '/'`, `extsep = '.'`):
split off the extension at the last dot, unless every character between the
start of the basename and that dot is itself a dot. -/
def splitext (p : String) : String × String :=
  let chars := p.data
  let dotIndex : Option Nat := rfindChar '.' chars
  let sepIndex : Option Nat := rfindChar '/' chars
  let filenameIndex : Nat := match sepIndex with | some i => i + 1 | none => 0
  match dotIndex with
  | none => (p, "")
  | some d =>
    let afterSep : Bool := match sepIndex with | some i => i < d | none => true
    if afterSep ∧ ((List.range (d - filenameIndex)).any
        fun k => chars.getD (filenameIndex + k) '.' ≠ '.') then
      (String.mk (chars.take d), String.mk (chars.drop d))
    else (p, "")

/-! ## `utils.py` — DuplicateIndex filtering and SearchExpander -/

/-- A fetched arXiv paper as used by `filter_new_papers` /
`apply_smart_expansion` (`paper.entry_id`, `paper.title`). -/
structure ArxivPaper where
  entry_id : String
  title : String
deriving DecidableEq, Repr

/-- `utils.filter_new_papers`: drop every paper whose `entry_id` is in
`existing_links` or whose trimmed-and-lowercased title is in
`existing_titles`; keep the rest in order. -/
def filter_new_papers : List ArxivPaper → List String → List String → List ArxivPaper
  | [], _, _ => []
  | paper :: rest, existing_links, existing_titles =>
    let paper_link := paper.entry_id
    let paper_title_normalized := pyLower (pyStrip paper.title)
    let is_duplicate_link := existing_links.contains paper_link
    let is_duplicate_title := existing_titles.contains paper_title_normalized
    if is_duplicate_link || is_duplicate_title then
      filter_new_papers rest existing_links existing_titles
    else
      paper :: filter_new_papers rest existing_links existing_titles

/-- `config.MAX_EXPANSION_RESULTS`. -/
def MAX_EXPANSION_RESULTS : Nat := 25

/-- `utils.apply_smart_expansion`.  The external `search_arxiv` call is
passed in as `searchFn` (a function of the widened `max_results`); everything
else follows the source. -/
def apply_smart_expansion (searchFn : Nat → List ArxivPaper)
    (papers : List ArxivPaper) (original_count max_results : Nat)
    (existing_links existing_titles : List String) :
    List ArxivPaper × Bool :=
  if papers.length = 0 ∧ original_count > 0 then
    let expanded_results := min (max_results * 3) MAX_EXPANSION_RESULTS
    let papers_expanded := searchFn expanded_results
    let filtered := filter_new_papers papers_expanded existing_links existing_titles
    if filtered.length > max_results then
      (filtered.take max_results, true)
    else
      (filtered, true)
  else
    (papers, false)

/-- The duplicate predicate of `filter_new_papers`, for specification. -/
def isDuplicate (existing_links existing_titles : List String)
    (p : ArxivPaper) : Bool :=
  existing_links.contains p.entry_id ||
    existing_titles.contains (pyLower (pyStrip p.title))

theorem filter_new_papers_eq_filter (papers : List ArxivPaper)
    (links titles : List String) :
    filter_new_papers papers links titles =
      papers.filter (fun p => !(isDuplicate links titles p)) := by
  induction papers with
  | nil => rfl
  | cons p rest ih =>
    by_cases h : isDuplicate links titles p = true
    · have h2 : (links.contains p.entry_id ||
          titles.contains (pyLower (pyStrip p.title))) = true := h
      simp only [filter_new_papers, List.filter_cons, h2, h, ih,
        Bool.not_true, if_false, if_true, Bool.false_eq_true]
    · have h2 : (links.contains p.entry_id ||
          titles.contains (pyLower (pyStrip p.title))) = false :=
        Bool.not_eq_true _ ▸ Bool.of_not_eq_true h
      simp only [filter_new_papers, List.filter_cons, h2, ih,
        Bool.of_not_eq_true h, Bool.not_false, if_true, if_false,
        Bool.false_eq_true, Bool.true_eq_false]

/-- **C3.** `filter_new_papers` excludes a candidate iff its link is among
the existing links or its trimmed-and-lowercased title is among the existing
titles; the survivors are a sublist of the input (same relative order). -/
theorem c3_filter_new_papers_spec (papers : List ArxivPaper)
    (links titles : List String) :
    (∀ p, p ∈ filter_new_papers papers links titles ↔
        p ∈ papers ∧ links.contains p.entry_id = false ∧
          titles.contains (pyLower (pyStrip p.title)) = false) ∧
    (filter_new_papers papers links titles).Sublist papers := by
  rw [filter_new_papers_eq_filter]
  refine ⟨fun p => ?_, List.filter_sublist _⟩
  simp only [List.mem_filter, isDuplicate, Bool.not_eq_true',
    Bool.or_eq_false_iff]

/-- **C9.** When duplicate filtering leaves zero survivors of a non-empty
batch, the fetch is re-issued with window `min(max_results * 3, 25)`, the
result is re-filtered against the same link/title sets and clipped to the
first `max_results` entries, and the expansion flag is set; the clipped
result is an order-preserving sublist of the expanded fetch, and a filtered
result that is still empty is returned as the empty list rather than an
error. -/
theorem c9_apply_smart_expansion_spec (searchFn : Nat → List ArxivPaper)
    (original_count max_results : Nat) (links titles : List String)
    (h : original_count > 0) :
    apply_smart_expansion searchFn [] original_count max_results links titles =
      ((filter_new_papers (searchFn (min (max_results * 3) 25)) links titles).take
          max_results, true) ∧
    (apply_smart_expansion searchFn [] original_count max_results links
        titles).1.Sublist (searchFn (min (max_results * 3) 25)) ∧
    (apply_smart_expansion searchFn [] original_count max_results links
        titles).1.length ≤ max_results ∧
    (filter_new_papers (searchFn (min (max_results * 3) 25)) links titles = [] →
      apply_smart_expansion searchFn [] original_count max_results links titles
        = ([], true)) := by
  have hcond : ([] : List ArxivPaper).length = 0 ∧ original_count > 0 := ⟨rfl, h⟩
  set f := filter_new_papers (searchFn (min (max_results * 3) 25)) links titles with hf
  have hmain : apply_smart_expansion searchFn [] original_count max_results links titles
      = (f.take max_results, true) := by
    simp only [apply_smart_expansion, MAX_EXPANSION_RESULTS, if_pos hcond, ← hf]
    by_cases hlen : f.length > max_results
    · simp [hlen]
    · simp [hlen, List.take_of_length_le (Nat.le_of_not_lt hlen)]
  refine ⟨hmain, ?_, ?_, ?_⟩
  · rw [hmain]
    exact (List.take_sublist _ _).trans
      (by rw [hf, filter_new_papers_eq_filter]; exact List.filter_sublist _)
  · rw [hmain]; exact List.length_take_le _ _
  · intro hempty; rw [hmain, hf] at *; simp [hempty]

/-- Witness for C9 at a concrete instantiation: one fresh paper appears in
the widened fetch and survives. -/
theorem c9_witness :
    (0 : Nat) < 2 ∧
    apply_smart_expansion
        (fun _ => [⟨"http://arxiv.org/abs/1", "A"⟩, ⟨"http://arxiv.org/abs/2", "B"⟩])
        [] 2 1 ["http://arxiv.org/abs/1"] [] =
      ([⟨"http://arxiv.org/abs/2", "B"⟩], true) := by
  refine ⟨by decide, ?_⟩
  have h := (c9_apply_smart_expansion_spec
      (fun _ => [⟨"http://arxiv.org/abs/1", "A"⟩, ⟨"http://arxiv.org/abs/2", "B"⟩])
      2 1 ["http://arxiv.org/abs/1"] [] (by decide)).1
  rw [h]
  rfl

/-- Witness for C3 applied at a concrete input: the duplicate-by-title paper
is excluded, the fresh one kept. -/
theorem c3_witness :
    (⟨"L2", "New Paper"⟩ : ArxivPaper) ∈
      filter_new_papers [⟨"L1", " Dup Title "⟩, ⟨"L2", "New Paper"⟩]
        [] ["dup title"] ∧
    (⟨"L1", " Dup Title "⟩ : ArxivPaper) ∉
      filter_new_papers [⟨"L1", " Dup Title "⟩, ⟨"L2", "New Paper"⟩]
        [] ["dup title"] := by
  constructor
  · exact ((c3_filter_new_papers_spec
        [⟨"L1", " Dup Title "⟩, ⟨"L2", "New Paper"⟩] [] ["dup title"]).1 _).mpr
      (by refine ⟨by decide, by decide, by decide⟩)
  · intro hmem
    have h := ((c3_filter_new_papers_spec
        [⟨"L1", " Dup Title "⟩, ⟨"L2", "New Paper"⟩] [] ["dup title"]).1 _).mp hmem
    exact absurd h.2.2 (by decide)

/-! ## `result_processor.py` — SchemaResolver

The file system is passed explicitly: an existing file is `some lines`
(its text split into physical lines, trailing newlines removed — the model
of `readlines` sufficient here since only stripped lines are inspected), a
missing file is `none`.  The current date (`datetime.now().strftime("%d%m%y")`)
is the parameter `date_suffix`. -/

/-- `ResultProcessor.extract_questions_from_existing_file`, on the lines of
an existing file: parse the first line as a pipe-delimited header, drop the
first two columns, discard empty cells. -/
def extract_questions_from_lines (lines : List String) : List String :=
  match lines with
  | [] => []
  | first :: _ =>
    let header_line := pyStrip first
    let headers := (pySplitChar '|' header_line).map pyStrip
    if headers.length ≥ 2 then
      (headers.drop 2).filter (fun q => q ≠ "")
    else []

/-- The normalization applied by `questions_match` (newlines to spaces,
surrounding whitespace trimmed). -/
def normalizeQuestion (q : String) : String :=
  pyStrip (pyReplaceNl q)

/-- `ResultProcessor.questions_match`. -/
def questions_match (existing_questions config_questions : List String) : Bool :=
  existing_questions.map normalizeQuestion == config_questions.map normalizeQuestion

/-- `ResultProcessor.get_output_filename`.  `file` is the content of the
file at the output path (`none` when `os.path.exists` is false),
`date_suffix` the current `ddmmyy` string. -/
def get_output_filename (file : Option (List String)) (base_filename : String)
    (questions : List String) (date_suffix : String) : String :=
  match file with
  | none => base_filename
  | some lines =>
    let existing_questions := extract_questions_from_lines lines
    if questions_match existing_questions questions then base_filename
    else
      let ne := splitext base_filename
      ne.1 ++ "_" ++ date_suffix ++ ne.2

/-- **C2.** `get_output_filename` returns the base filename when no file
exists; returns the base filename when the questions parsed from the
existing file's header match the configured ones after normalization; and
otherwise returns `name ++ "_" ++ ddmmyy ++ extension`. -/
theorem c2_get_output_filename_spec (base date_suffix : String)
    (questions : List String) :
    get_output_filename none base questions date_suffix = base ∧
    (∀ lines, questions_match (extract_questions_from_lines lines) questions = true →
      get_output_filename (some lines) base questions date_suffix = base) ∧
    (∀ lines, questions_match (extract_questions_from_lines lines) questions = false →
      get_output_filename (some lines) base questions date_suffix =
        (splitext base).1 ++ "_" ++ date_suffix ++ (splitext base).2) := by
  refine ⟨rfl, fun lines h => ?_, fun lines h => ?_⟩
  · simp only [get_output_filename, h, if_true]
  · simp only [get_output_filename, h, Bool.false_eq_true, if_false]

/-- Witness for C2 at concrete inputs: an unchanged schema keeps
`research.md`, a changed one rotates to `research_121025.md`. -/
theorem c2_witness :
    questions_match
        (extract_questions_from_lines ["Paper Title | arXiv Link | Q1\n"]) ["Q1"] = true ∧
    get_output_filename (some ["Paper Title | arXiv Link | Q1\n"]) "research.md"
        ["Q1"] "121025" = "research.md" ∧
    questions_match
        (extract_questions_from_lines ["Paper Title | arXiv Link | Q1\n"]) ["Q2"] = false ∧
    get_output_filename (some ["Paper Title | arXiv Link | Q1\n"]) "research.md"
        ["Q2"] "121025" = "research_121025.md" := by
  refine ⟨by decide, ?_, by decide, ?_⟩
  · exact (c2_get_output_filename_spec "research.md" "121025" ["Q1"]).2.1
      ["Paper Title | arXiv Link | Q1\n"] (by decide)
  · have h := (c2_get_output_filename_spec "research.md" "121025" ["Q2"]).2.2
      ["Paper Title | arXiv Link | Q1\n"] (by decide)
    rw [h]; rfl

/-! ## JSON values

`json.loads` produces Python values; they are modelled by `JVal` (numbers as
integers).  Objects are association lists in insertion order with duplicate
keys collapsed at parse time, mirroring `dict` semantics. -/

inductive JVal where
  | null
  | bool (b : Bool)
  | num (n : Int)
  | str (s : String)
  | arr (elems : List JVal)
  | obj (items : List (String × JVal))

mutual

/-- Python `repr` of a decoded JSON value (string escaping elided). -/
def pyRepr : JVal → String
  | .null => "None"
  | .bool true => "True"
  | .bool false => "False"
  | .num n => toString n
  | .str s => "\x27" ++ s ++ "\x27"
  | .arr elems => "[" ++ pyJoin ", " (pyReprList elems) ++ "]"
  | .obj items => "\x7b" ++ pyJoin ", " (pyReprItems items) ++ "\x7d"

/-- `repr` of the elements of a list value. -/
def pyReprList : List JVal → List String
  | [] => []
  | v :: rest => pyRepr v :: pyReprList rest

/-- `repr` of the key/value pairs of an object value. -/
def pyReprItems : List (String × JVal) → List String
  | [] => []
  | (k, v) :: rest => ("\x27" ++ k ++ "\x27: " ++ pyRepr v) :: pyReprItems rest

end

/-- Python `str()` of a decoded JSON value. -/
def pyStr : JVal → String
  | .str s => s
  | v => pyRepr v

/-- Python truthiness of a decoded JSON value. -/
def pyTruthy : JVal → Bool
  | .null => false
  | .bool b => b
  | .num n => n != 0
  | .str s => !s.data.isEmpty
  | .arr elems => !elems.isEmpty
  | .obj items => !items.isEmpty

/-! ## `result_processor.py` — per-question answer matching

`ResultProcessor.parse_llm_results` (JSON branch, lines 42–72) and
`ResultProcessor.parse_comprehensive_llm_result` (lines 209–229) each map a
question to a value of the parsed answer object. -/

/-- Fuzzy phase of the per-document matching loop (`parse_llm_results`):
case-insensitive trimmed equality, else all of the first three words of the
question occur in the key, else all of the first three words of the key
occur in the question; first key wins. -/
def findAnswerFuzzy (question_lower : String) :
    List (String × JVal) → Option JVal
  | [] => none
  | (key, value) :: rest =>
    let key_lower := pyStrip (pyLower key)
    if question_lower = key_lower then some value
    else if ((pyWords question_lower).take 3).all
        (fun word => strContains key_lower word) then some value
    else if ((pyWords key_lower).take 3).all
        (fun word => strContains question_lower word) then some value
    else findAnswerFuzzy question_lower rest

/-- Per-document question→value matching: exact key lookup, then the fuzzy
loop. -/
def findAnswer (parsed_answers : List (String × JVal)) (question : String) :
    Option JVal :=
  match parsed_answers.lookup question with
  | some v => some v
  | none => findAnswerFuzzy (pyStrip (pyLower question)) parsed_answers

/-- The recorded answer of the per-document path:
`str(answer).strip() if answer else "Not found"`. -/
def recordedAnswer (parsed_answers : List (String × JVal))
    (question : String) : String :=
  match findAnswer parsed_answers question with
  | some answer => if pyTruthy answer then pyStrip (pyStr answer) else "Not found"
  | none => "Not found"

/-- Fuzzy phase of the comprehensive-path matching loop
(`parse_comprehensive_llm_result`): case-insensitive trimmed equality, or
ANY of the first three words of the question occurring in the key. -/
def findAnswerCompFuzzy (question_lower : String) :
    List (String × JVal) → Option JVal
  | [] => none
  | (key, value) :: rest =>
    let key_lower := pyStrip (pyLower key)
    if question_lower = key_lower ||
        ((pyWords question_lower).take 3).any
          (fun word => strContains key_lower word) then some value
    else findAnswerCompFuzzy question_lower rest

/-- Comprehensive-path question→value matching: exact key lookup, then its
fuzzy loop. -/
def findAnswerComp (analysis : List (String × JVal)) (question : String) :
    Option JVal :=
  match analysis.lookup question with
  | some v => some v
  | none => findAnswerCompFuzzy (pyStrip (pyLower question)) analysis

/-- The recorded answer of the comprehensive path (same
truthiness-guarded rendering). -/
def recordedAnswerComp (analysis : List (String × JVal))
    (question : String) : String :=
  match findAnswerComp analysis question with
  | some answer => if pyTruthy answer then pyStrip (pyStr answer) else "Not found"
  | none => "Not found"

/-- The two-way "first three words" overlap rule of the claim. -/
def wordOverlapMatch (question_lower key_lower : String) : Bool :=
  ((pyWords question_lower).take 3).all (fun w => strContains key_lower w) ||
    ((pyWords key_lower).take 3).all (fun w => strContains question_lower w)

/-- **C8 (counterexample).** The two reconciliation paths do not implement
the same matching rule: on the key `"alpha xyz"` and the question
`"alpha beta gamma"`, the per-document path records `"Not found"` while
the comprehensive path matches (any-word rule) and records the value. -/
theorem c8_counterexample :
    recordedAnswer [("alpha xyz", JVal.str "V")] "alpha beta gamma" = "Not found" ∧
    recordedAnswerComp [("alpha xyz", JVal.str "V")] "alpha beta gamma" = "V" := by
  constructor <;> decide

/-- Specification predicate for the per-document fuzzy rule: the key is
case-insensitively equal to the question, or the two-way
first-three-words overlap holds. -/
def perDocRule (question_lower : String) (kv : String × JVal) : Bool :=
  (question_lower == pyStrip (pyLower kv.1)) ||
    wordOverlapMatch question_lower (pyStrip (pyLower kv.1))

/-- Specification predicate for the comprehensive fuzzy rule: the key is
case-insensitively equal to the question, or contains ANY of the first
three words of the question. -/
def compRule (question_lower : String) (kv : String × JVal) : Bool :=
  (question_lower == pyStrip (pyLower kv.1)) ||
    ((pyWords question_lower).take 3).any
      (fun word => strContains (pyStrip (pyLower kv.1)) word)

/-- **C8 (amended).** The per-document fuzzy phase matches exactly the first
key that is case-insensitively equal to the question or satisfies the
two-way first-three-words overlap rule; the comprehensive fuzzy phase
instead matches the first key that is case-insensitively equal or contains
ANY of the first three words of the question; in both paths a failed match
records the literal string `"Not found"`. -/
theorem c8_matching_rules (parsed : List (String × JVal)) (question : String) :
    (findAnswerFuzzy (pyStrip (pyLower question)) parsed =
      (parsed.find? (perDocRule (pyStrip (pyLower question)))).map Prod.snd) ∧
    (findAnswerCompFuzzy (pyStrip (pyLower question)) parsed =
      (parsed.find? (compRule (pyStrip (pyLower question)))).map Prod.snd) ∧
    (findAnswer parsed question = none →
      recordedAnswer parsed question = "Not found") ∧
    (findAnswerComp parsed question = none →
      recordedAnswerComp parsed question = "Not found") := by
  refine ⟨?_, ?_, ?_, ?_⟩
  · induction parsed with
    | nil => rfl
    | cons kv rest ih =>
      obtain ⟨key, value⟩ := kv
      by_cases h1 : pyStrip (pyLower question) = pyStrip (pyLower key)
      · rw [List.find?_cons_of_pos _ (by simp [perDocRule, h1])]
        simp only [findAnswerFuzzy, if_pos h1]
        rfl
      · cases h2 : ((pyWords (pyStrip (pyLower question))).take 3).all
            (fun word => strContains (pyStrip (pyLower key)) word) with
        | true =>
          rw [List.find?_cons_of_pos _
            (by simp [perDocRule, wordOverlapMatch, h2])]
          simp only [findAnswerFuzzy, if_neg h1, h2, if_true]
          rfl
        | false =>
          cases h3 : ((pyWords (pyStrip (pyLower key))).take 3).all
              (fun word => strContains (pyStrip (pyLower question)) word) with
          | true =>
            rw [List.find?_cons_of_pos _
              (by simp [perDocRule, wordOverlapMatch, h2, h3])]
            simp only [findAnswerFuzzy, if_neg h1, h2, h3,
              Bool.false_eq_true, if_false, if_true]
            rfl
          | false =>
            rw [List.find?_cons_of_neg _
              (by simp [perDocRule, wordOverlapMatch, h1, h2, h3])]
            simp only [findAnswerFuzzy, if_neg h1, h2, h3,
              Bool.false_eq_true, if_false, ih]
  · induction parsed with
    | nil => rfl
    | cons kv rest ih =>
      obtain ⟨key, value⟩ := kv
      cases h1 : ((pyStrip (pyLower question) == pyStrip (pyLower key)) ||
          ((pyWords (pyStrip (pyLower question))).take 3).any
            (fun word => strContains (pyStrip (pyLower key)) word)) with
      | true =>
        rw [List.find?_cons_of_pos _ (by simpa [compRule] using h1)]
        have h1p : (pyStrip (pyLower question) = pyStrip (pyLower key) ||
            ((pyWords (pyStrip (pyLower question))).take 3).any
              (fun word => strContains (pyStrip (pyLower key)) word)) = true := by
          simpa using h1
        simp only [findAnswerCompFuzzy, h1p, if_true]
        rfl
      | false =>
        rw [List.find?_cons_of_neg _ (by simp only [compRule]; exact h1 ▸ by simp [h1])]
        have h1p : (pyStrip (pyLower question) = pyStrip (pyLower key) ||
            ((pyWords (pyStrip (pyLower question))).take 3).any
              (fun word => strContains (pyStrip (pyLower key)) word)) = false := by
          simpa using h1
        simp only [findAnswerCompFuzzy, h1p, Bool.false_eq_true, if_false, ih]
  · intro h; simp only [recordedAnswer, h]
  · intro h; simp only [recordedAnswerComp, h]

/-- Witness for C8 (amended) at a concrete input: no key matches under
either rule, so both paths record `"Not found"`. -/
theorem c8_matching_rules_witness :
    recordedAnswer [("zzz", JVal.str "V")] "alpha beta" = "Not found" ∧
    recordedAnswerComp [("zzz", JVal.str "V")] "alpha beta" = "Not found" := by
  have h := c8_matching_rules [("zzz", JVal.str "V")] "alpha beta"
  exact ⟨h.2.2.1 rfl, h.2.2.2 rfl⟩

/-- **C10.** In both key-matching paths, a matched value that is falsy
(null, `False`, `0`, the empty string, an empty array or object) records
the sentinel `"Not found"`, and a truthy matched value records
`str(value).strip()`. -/
theorem c10_falsy_answers (parsed : List (String × JVal)) (question : String)
    (v : JVal) :
    (findAnswer parsed question = some v →
      recordedAnswer parsed question =
        if pyTruthy v then pyStrip (pyStr v) else "Not found") ∧
    (findAnswerComp parsed question = some v →
      recordedAnswerComp parsed question =
        if pyTruthy v then pyStrip (pyStr v) else "Not found") := by
  constructor
  · intro h; simp only [recordedAnswer, h]
  · intro h; simp only [recordedAnswerComp, h]

/-- Witness for C10: an exactly-matched empty string and an exactly-matched
`False` both record `"Not found"`; a truthy match records the stripped
string. -/
theorem c10_falsy_answers_witness :
    recordedAnswer [("Q", JVal.str "")] "Q" = "Not found" ∧
    recordedAnswer [("Q", JVal.bool false)] "Q" = "Not found" ∧
    recordedAnswerComp [("Q", JVal.num 0)] "Q" = "Not found" ∧
    recordedAnswer [("Q", JVal.str " yes ")] "Q" = "yes" := by
  refine ⟨?_, ?_, ?_, ?_⟩
  · have h := (c10_falsy_answers [("Q", JVal.str "")] "Q" (JVal.str "")).1 rfl
    rw [h]; decide
  · have h := (c10_falsy_answers [("Q", JVal.bool false)] "Q"
      (JVal.bool false)).1 rfl
    rw [h]; decide
  · have h := (c10_falsy_answers [("Q", JVal.num 0)] "Q" (JVal.num 0)).2 rfl
    rw [h]; decide
  · have h := (c10_falsy_answers [("Q", JVal.str " yes ")] "Q"
      (JVal.str " yes ")).1 rfl
    rw [h]; decide

/-! ## A small regular-expression engine

The repository uses Python `re` with a handful of fixed patterns.  They are
modelled by a small AST (single-character classes, greedy star over a class,
greedy option, sequence, alternation) evaluated with exactly the
backtracking priority order of Python's engine: leftmost starting position
first, greedy quantifiers preferring longer matches, alternatives in
written order.  `IGNORECASE` and `DOTALL` are baked into the character
classes at pattern-construction time. -/

inductive RE where
  | eps
  | cls (p : Char → Bool)
  | seq (a b : RE)
  | alt (a b : RE)
  | starCls (p : Char → Bool)
  | opt (r : RE)

/-- All suffixes that can remain after matching `r` at the front of `s`, in
backtracking priority order (first = preferred). -/
def reMatch : RE → List Char → List (List Char)
  | .eps, s => [s]
  | .cls _, [] => []
  | .cls p, c :: rest => if p c then [rest] else []
  | .seq a b, s => (reMatch a s).flatMap (reMatch b)
  | .alt a b, s => reMatch a s ++ reMatch b s
  | .starCls p, s =>
    let run := (s.takeWhile p).length
    (List.range (run + 1)).reverse.map fun k => s.drop k
  | .opt r, s => reMatch r s ++ [s]

/-- `re.search`: earliest starting position that admits a match; returns
`(start, end)` of the preferred match at that position. -/
def reSearchAux (r : RE) : List Char → Nat → Option (Nat × Nat)
  | s, pos =>
    match reMatch r s with
    | suffix :: _ => some (pos, pos + (s.length - suffix.length))
    | [] =>
      match s with
      | [] => none
      | _ :: rest => reSearchAux r rest (pos + 1)

/-- `re.search` on a string, returning `(match.start(), match.end())`. -/
def reSearch (r : RE) (s : String) : Option (Nat × Nat) :=
  reSearchAux r s.data 0

/-- `re.split`: cut the text at every (non-empty) match of the pattern. -/
def reSplitGo (r : RE) : Nat → List Char → List (List Char)
  | 0, s => [s]
  | fuel + 1, s =>
    match reSearchAux r s 0 with
    | none => [s]
    | some (i, j) =>
      if i < j then s.take i :: reSplitGo r fuel (s.drop j)
      else [s]

/-- `re.split` on a string (all patterns used can only match non-empty
text). -/
def reSplit (r : RE) (s : String) : List String :=
  (reSplitGo r (s.data.length + 1) s.data).map String.mk

/-- Python slice `s[a:b]` with `0 ≤ a ≤ b`. -/
def pySlice (a b : Nat) (s : String) : String :=
  String.mk ((s.data.drop a).take (b - a))

/-- Case-sensitive literal character. -/
def reChar (c : Char) : RE := .cls (fun d => d = c)

/-- Case-insensitive literal character (`re.IGNORECASE`). -/
def reCharCI (c : Char) : RE := .cls (fun d => d.toLower = c.toLower)

/-- Case-sensitive literal string. -/
def reStr (s : String) : RE :=
  s.data.foldr (fun c acc => .seq (reChar c) acc) .eps

/-- Case-insensitive literal string. -/
def reStrCI (s : String) : RE :=
  s.data.foldr (fun c acc => .seq (reCharCI c) acc) .eps

/-- `\s*` -/
def wsStar : RE := .starCls pyIsSpace

/-- `\s+` -/
def wsPlus : RE := .seq (.cls pyIsSpace) wsStar

/-- `\d+` -/
def digitPlus : RE := .seq (.cls Char.isDigit) (.starCls Char.isDigit)

/-- `(?:\d+\.?\s+)` — optional numbering prefix of a section heading. -/
def numPrefix : RE := .seq digitPlus (.seq (.opt (reChar '.')) wsPlus)

/-- A full conclusion-heading pattern
`\n\s*(?:\d+\.?\s+)?(<core>):?\s*\n` around a given core. -/
def headingPattern (core : RE) : RE :=
  .seq (reChar '\n') (.seq wsStar (.seq (.opt numPrefix)
    (.seq core (.seq (.opt (reChar ':')) (.seq wsStar (reChar '\n'))))))

/-- `Conclusions?` -/
def coreConclusions : RE := .seq (reStrCI "Conclusion") (.opt (reCharCI 's'))

/-- `Discussion(?:s?(?:\s+and\s+Conclusions?)?)?` -/
def coreDiscussion : RE :=
  .seq (reStrCI "Discussion")
    (.opt (.seq (.opt (reCharCI 's'))
      (.opt (.seq wsPlus (.seq (reStrCI "and") (.seq wsPlus coreConclusions))))))

/-- `Summary(?:\s+and\s+Conclusions?)?` -/
def coreSummary : RE :=
  .seq (reStrCI "Summary")
    (.opt (.seq wsPlus (.seq (reStrCI "and") (.seq wsPlus coreConclusions))))

/-- `Concluding\s+Remarks?` -/
def coreConcludingRemarks : RE :=
  .seq (reStrCI "Concluding") (.seq wsPlus (.seq (reStrCI "Remark") (.opt (reCharCI 's'))))

/-- `Final\s+Remarks?` -/
def coreFinalRemarks : RE :=
  .seq (reStrCI "Final") (.seq wsPlus (.seq (reStrCI "Remark") (.opt (reCharCI 's'))))

/-- `Results?\s+and\s+Discussions?` -/
def coreResultsDiscussion : RE :=
  .seq (reStrCI "Result") (.seq (.opt (reCharCI 's'))
    (.seq wsPlus (.seq (reStrCI "and")
      (.seq wsPlus (.seq (reStrCI "Discussion") (.opt (reCharCI 's')))))))

/-- `Outlook` -/
def coreOutlook : RE := reStrCI "Outlook"

/-- `DataProcessor.extract_conclusions_section`'s `conclusion_patterns`,
in source order. -/
def conclusionPatterns : List RE :=
  [headingPattern coreConclusions,
   headingPattern coreDiscussion,
   headingPattern coreSummary,
   headingPattern coreConcludingRemarks,
   headingPattern coreFinalRemarks,
   headingPattern coreResultsDiscussion,
   headingPattern coreOutlook]

/-- `\n\s*\d+\.?\s+[A-Z][^.\n]*\n` (with `IGNORECASE`, `[A-Z]` matches any
letter). -/
def nextNumberedSection : RE :=
  .seq (reChar '\n') (.seq wsStar (.seq digitPlus (.seq (.opt (reChar '.'))
    (.seq wsPlus (.seq (.cls Char.isAlpha)
      (.seq (.starCls fun c => c ≠ '.' && c ≠ '\n') (reChar '\n')))))))

/-- `\n\s*(?:REFERENCES?|BIBLIOGRAPHY|ACKNOWLEDGMENTS?|APPENDIX)\s*\n` -/
def nextSpecialSection : RE :=
  .seq (reChar '\n') (.seq wsStar (.seq
    (.alt (.seq (reStrCI "REFERENCE") (.opt (reCharCI 'S')))
      (.alt (reStrCI "BIBLIOGRAPHY")
        (.alt (.seq (reStrCI "ACKNOWLEDGMENT") (.opt (reCharCI 'S')))
          (reStrCI "APPENDIX"))))
    (.seq wsStar (reChar '\n'))))

/-- `DataProcessor.extract_conclusions_section`'s `next_section_patterns`. -/
def nextSectionPatterns : List RE := [nextNumberedSection, nextSpecialSection]

/-- One `\n\s*<name>\s*\n` reference-heading pattern. -/
def refPattern (name : String) : RE :=
  .seq (reChar '\n') (.seq wsStar (.seq (reStrCI name) (.seq wsStar (reChar '\n'))))

/-- `DataProcessor.strip_references_section`'s `ref_patterns` (all searched
case-insensitively, so the capitalization variants coincide). -/
def referencePatterns : List RE :=
  [refPattern "REFERENCES", refPattern "References",
   refPattern "BIBLIOGRAPHY", refPattern "Bibliography",
   refPattern "REFERENCE LIST", refPattern "Reference List"]

/-! ## `data_processor.py` — ContentWindower -/

/-- `config.STRIP_REFERENCES`. -/
def STRIP_REFERENCES : Bool := true

/-- `config.MAX_CONCLUSIONS_LENGTH`. -/
def MAX_CONCLUSIONS_LENGTH : Nat := 3000

/-- Inner loop of `strip_references_section`: first pattern with a match
wins; keep the text before the match, stripped. -/
def stripRefsGo (text : String) : List RE → String
  | [] => text
  | pat :: rest =>
    match reSearch pat text with
    | some m => pyStrip (pyTake m.1 text)
    | none => stripRefsGo text rest

/-- `DataProcessor.strip_references_section`. -/
def strip_references_section (text : String) : String :=
  if !STRIP_REFERENCES then text else stripRefsGo text referencePatterns

/-- First `next_section_patterns` entry with a match, in pattern order
(the source breaks on the first pattern that matches). -/
def firstNextSection (tail : String) : List RE → Option (Nat × Nat)
  | [] => none
  | pat :: rest =>
    match reSearch pat tail with
    | some m => some m
    | none => firstNextSection tail rest

/-- Inner loop of `extract_conclusions_section` over
`conclusion_patterns`; a pattern whose extracted, trimmed, length-capped
section is empty falls through to the next pattern. -/
def extractConclGo (text : String) : List RE → Option String
  | [] => none
  | pat :: rest =>
    match reSearch pat text with
    | none => extractConclGo text rest
    | some m =>
      let section_start := m.2
      let section_end :=
        match firstNextSection (pyDrop section_start text) nextSectionPatterns with
        | some nm => section_start + nm.1
        | none => text.length
      let conclusions0 := pyStrip (pySlice section_start section_end text)
      let conclusions :=
        if conclusions0.length > MAX_CONCLUSIONS_LENGTH then
          pyTake MAX_CONCLUSIONS_LENGTH conclusions0 ++ "..."
        else conclusions0
      if conclusions ≠ "" then some conclusions else extractConclGo text rest

/-- `DataProcessor.extract_conclusions_section`. -/
def extract_conclusions_section (text : String) : Option String :=
  extractConclGo text conclusionPatterns

/-- `DataProcessor.process_content_for_llm`.  Python's
`max(0, max_content_length - len(...))` is the truncated `Nat`
subtraction. -/
def process_content_for_llm (title abstract content : String)
    (max_content_length : Nat) : String :=
  let content_no_refs := strip_references_section content
  if content_no_refs.length > max_content_length then
    match extract_conclusions_section content_no_refs with
    | some conclusions =>
      let conclusions_content := "\n\n[CONCLUSIONS SECTION]:\n" ++ conclusions
      let main_content :=
        pyTake (max_content_length - conclusions_content.length) content_no_refs
      "Title: " ++ title ++ "\n\nAbstract: " ++ abstract ++ conclusions_content ++
        "\n\n[MAIN CONTENT]:\n" ++ main_content
    | none =>
      let main_content := pyTake max_content_length content_no_refs
      "Title: " ++ title ++ "\n\nAbstract: " ++ abstract ++ "\n\nContent: " ++
        main_content
  else
    "Title: " ++ title ++ "\n\nAbstract: " ++ abstract ++ "\n\nContent: " ++
      content_no_refs

/-- Length of the conclusions text that `process_content_for_llm` will embed
for a given (reference-stripped) body and budget: relevant only when the
body is over budget and a conclusions section is found. -/
def conclLenOf (s : String) (max_content_length : Nat) : Nat :=
  if s.length > max_content_length then
    match extract_conclusions_section s with
    | some c => c.length
    | none => 0
  else 0

/-- **C5 (counterexample).** With `max_length = 1` the body portion of the
output (everything after the title and abstract) is 60 characters long: the
conclusions block is embedded whole even though it alone exceeds the
budget, so the body portion is NOT bounded by `max_length`. -/
theorem c5_counterexample :
    process_content_for_llm "T" "A"
        "Intro blah blah blah\nConclusions\nWe conclude stuff" 1 =
      "Title: " ++ "T" ++ "\n\nAbstract: " ++ "A" ++
        "\n\n[CONCLUSIONS SECTION]:\nWe conclude stuff\n\n[MAIN CONTENT]:\n" ∧
    ("\n\n[CONCLUSIONS SECTION]:\nWe conclude stuff\n\n[MAIN CONTENT]:\n").length
      > 1 ∧
    ("We conclude stuff").length > 1 := by
  refine ⟨by decide, by decide, by decide⟩

/-- **C5 (amended).** The output always reproduces title and abstract
verbatim as `"Title: <title>\n\nAbstract: <abstract>"` followed by a body;
the body never exceeds `max(max_length, conclusions length)` plus the 43
characters of the fixed section labels; and when the text is over budget
and a conclusions section is found, the conclusions text is embedded uncut
and the main content is the prefix of the stripped text of length
`max_length - conclusions_block_length` (truncated subtraction — the
remaining budget). -/
theorem c5_content_window_bounds (title abstract content : String)
    (max_content_length : Nat) (h : 0 < max_content_length) :
    ∃ body : String,
      process_content_for_llm title abstract content max_content_length =
        "Title: " ++ title ++ "\n\nAbstract: " ++ abstract ++ body ∧
      body.length ≤
        max max_content_length
          (conclLenOf (strip_references_section content) max_content_length) + 43 ∧
      (∀ concl,
        (strip_references_section content).length > max_content_length →
        extract_conclusions_section (strip_references_section content) =
          some concl →
        body = "\n\n[CONCLUSIONS SECTION]:\n" ++ concl ++
          "\n\n[MAIN CONTENT]:\n" ++
          pyTake (max_content_length - (25 + concl.length))
            (strip_references_section content)) := by
  have hlblC : ("\n\n[CONCLUSIONS SECTION]:\n").length = 25 := rfl
  have hlblM : ("\n\n[MAIN CONTENT]:\n").length = 18 := rfl
  have hlblT : ("\n\nContent: ").length = 11 := rfl
  set s := strip_references_section content with hs
  by_cases hover : s.length > max_content_length
  · cases hconc : extract_conclusions_section s with
    | none =>
      refine ⟨"\n\nContent: " ++ pyTake max_content_length s, ?_, ?_, ?_⟩
      · simp only [process_content_for_llm, ← hs, if_pos hover, hconc,
          String.append_assoc]
      · have hlen : (pyTake max_content_length s).length ≤ max_content_length := by
          simp only [pyTake, String.length_mk, List.length_take]
          omega
        rw [String.length_append, hlblT]
        omega
      · intro concl _ hc; exact absurd hc (by simp)
    | some concl =>
      have h25 : ("\n\n[CONCLUSIONS SECTION]:\n" ++ concl).length =
          25 + concl.length := by
        rw [String.length_append, hlblC]
      refine ⟨"\n\n[CONCLUSIONS SECTION]:\n" ++ concl ++ "\n\n[MAIN CONTENT]:\n" ++
          pyTake (max_content_length - (25 + concl.length)) s, ?_, ?_, ?_⟩
      · simp only [process_content_for_llm, ← hs, if_pos hover, hconc]
        rw [h25]
        simp only [String.append_assoc]
      · have hcl : conclLenOf s max_content_length = concl.length := by
          simp only [conclLenOf, if_pos hover, hconc]
        rw [hcl]
        have hmain : (pyTake (max_content_length - (25 + concl.length)) s).length ≤
            max_content_length - (25 + concl.length) := by
          simp only [pyTake, String.length_mk, List.length_take]
          omega
        simp only [String.length_append, hlblC, hlblM]
        have hmax1 : max_content_length ≤ max max_content_length concl.length :=
          le_max_left _ _
        have hmax2 : concl.length ≤ max max_content_length concl.length :=
          le_max_right _ _
        omega
      · intro concl2 _ hc
        have : concl = concl2 := by injection hc
        subst this; rfl
  · refine ⟨"\n\nContent: " ++ s, ?_, ?_, ?_⟩
    · simp only [process_content_for_llm, ← hs, if_neg hover, String.append_assoc]
    · rw [String.length_append, hlblT]
      have hcl : conclLenOf s max_content_length = 0 := by
        simp only [conclLenOf, if_neg hover]
      rw [hcl]
      omega
    · intro concl hover2 _; exact absurd hover2 hover

/-- Witness for C5 (amended) at a concrete over-budget input with a found
conclusions section and a budget that accommodates it. -/
theorem c5_content_window_bounds_witness :
    (0 : Nat) < 46 ∧
    process_content_for_llm "T" "A"
        "Intro blah blah blah\nConclusions\nWe conclude stuff" 46 =
      "Title: " ++ "T" ++ "\n\nAbstract: " ++ "A" ++
        ("\n\n[CONCLUSIONS SECTION]:\nWe conclude stuff" ++
          "\n\n[MAIN CONTENT]:\n" ++ "Intr") := by
  refine ⟨by decide, ?_⟩
  obtain ⟨body, heq, _, hshape⟩ := c5_content_window_bounds "T" "A"
    "Intro blah blah blah\nConclusions\nWe conclude stuff" 46 (by decide)
  have hb := hshape "We conclude stuff" (by decide) (by decide)
  rw [heq, hb]
  decide

/-! ## `json.loads` / `json.dumps`

A standard recursive-descent JSON parser (fuel-based for totality; the fuel
is always sufficient for the inputs evaluated).  JSON numbers are modelled
as integers: fractional literals are treated as parse failures, which the
callers handle exactly like a `json.JSONDecodeError`.  Duplicate object
keys collapse to the last value at its first position, as in a Python
`dict`. -/

/-- JSON whitespace. -/
def jsonWsChar (c : Char) : Bool :=
  c = ' ' || c = '\t' || c = '\n' || c = '\r'

/-- Skip JSON whitespace. -/
def jsonSkipWs (l : List Char) : List Char :=
  l.dropWhile jsonWsChar

/-- Value of a hexadecimal digit. -/
def hexVal (c : Char) : Option Nat :=
  if c.isDigit then some (c.toNat - 48)
  else
    let lc := c.toLower
    if 'a' ≤ lc ∧ lc ≤ 'f' then some (lc.toNat - 97 + 10) else none

/-- Parse the body of a JSON string after the opening quote; returns the
decoded characters and the remainder after the closing quote. -/
def parseStrChars : Nat → List Char → Option (List Char × List Char)
  | 0, _ => none
  | _, [] => none
  | fuel + 1, c :: rest =>
    if c = '"' then some ([], rest)
    else if c = '\\' then
      match rest with
      | [] => none
      | e :: rest2 =>
        if e = 'u' then
          match rest2 with
          | a :: b :: c2 :: d :: rest3 =>
            match hexVal a, hexVal b, hexVal c2, hexVal d with
            | some ha, some hb, some hc, some hd =>
              let n := ((ha * 16 + hb) * 16 + hc) * 16 + hd
              match parseStrChars fuel rest3 with
              | some (cs, rem) => some (Char.ofNat n :: cs, rem)
              | none => none
            | _, _, _, _ => none
          | _ => none
        else
          let ec : Option Char :=
            if e = '"' then some '"'
            else if e = '\\' then some '\\'
            else if e = '/' then some '/'
            else if e = 'n' then some '\n'
            else if e = 't' then some '\t'
            else if e = 'r' then some '\r'
            else if e = 'b' then some '\x08'
            else if e = 'f' then some '\x0c'
            else none
          match ec with
          | some ch =>
            match parseStrChars fuel rest2 with
            | some (cs, rem) => some (ch :: cs, rem)
            | none => none
          | none => none
    else
      match parseStrChars fuel rest with
      | some (cs, rem) => some (c :: cs, rem)
      | none => none

/-- Decimal digits to a natural number. -/
def digitsToNat (ds : List Char) : Nat :=
  ds.foldl (fun acc c => acc * 10 + (c.toNat - 48)) 0

/-- Parse a JSON integer literal. -/
def parseNum (l : List Char) : Option (Int × List Char) :=
  match l with
  | '-' :: rest =>
    let ds := rest.takeWhile Char.isDigit
    if ds.isEmpty then none
    else some (-(digitsToNat ds : Int), rest.dropWhile Char.isDigit)
  | _ =>
    let ds := l.takeWhile Char.isDigit
    if ds.isEmpty then none
    else some ((digitsToNat ds : Int), l.dropWhile Char.isDigit)

/-- `dict` insertion: replace in place when the key exists, append
otherwise. -/
def objInsert (items : List (String × JVal)) (k : String) (v : JVal) :
    List (String × JVal) :=
  if items.any (fun kv => kv.1 == k) then
    items.map fun kv => if kv.1 == k then (k, v) else kv
  else items ++ [(k, v)]

mutual

/-- Parse one JSON value. -/
def parseJVal : Nat → List Char → Option (JVal × List Char)
  | 0, _ => none
  | fuel + 1, l =>
    match jsonSkipWs l with
    | [] => none
    | c :: rest =>
      if c = '"' then
        match parseStrChars (rest.length + 1) rest with
        | some (cs, rem) => some (JVal.str (String.mk cs), rem)
        | none => none
      else if c = 't' then
        if ['r', 'u', 'e'].isPrefixOf rest then some (JVal.bool true, rest.drop 3)
        else none
      else if c = 'f' then
        if ['a', 'l', 's', 'e'].isPrefixOf rest then
          some (JVal.bool false, rest.drop 4)
        else none
      else if c = 'n' then
        if ['u', 'l', 'l'].isPrefixOf rest then some (JVal.null, rest.drop 3)
        else none
      else if c = '[' then
        match jsonSkipWs rest with
        | ']' :: rem => some (JVal.arr [], rem)
        | l2 => parseArrElems fuel l2 []
      else if c = '\x7b' then
        match jsonSkipWs rest with
        | '\x7d' :: rem => some (JVal.obj [], rem)
        | l2 => parseObjItems fuel l2 []
      else
        (parseNum (c :: rest)).map fun p => (JVal.num p.1, p.2)

/-- Parse the elements of a non-empty JSON array. -/
def parseArrElems : Nat → List Char → List JVal → Option (JVal × List Char)
  | 0, _, _ => none
  | fuel + 1, l, acc =>
    match parseJVal fuel l with
    | none => none
    | some (v, rem) =>
      match jsonSkipWs rem with
      | ',' :: rem2 => parseArrElems fuel rem2 (acc ++ [v])
      | ']' :: rem2 => some (JVal.arr (acc ++ [v]), rem2)
      | _ => none

/-- Parse the members of a non-empty JSON object. -/
def parseObjItems : Nat → List Char → List (String × JVal) →
    Option (JVal × List Char)
  | 0, _, _ => none
  | fuel + 1, l, acc =>
    match jsonSkipWs l with
    | '"' :: rest =>
      match parseStrChars (rest.length + 1) rest with
      | none => none
      | some (kcs, rem) =>
        match jsonSkipWs rem with
        | ':' :: rem2 =>
          match parseJVal fuel rem2 with
          | none => none
          | some (v, rem3) =>
            let acc2 := objInsert acc (String.mk kcs) v
            match jsonSkipWs rem3 with
            | ',' :: rem5 => parseObjItems fuel rem5 acc2
            | '\x7d' :: rem5 => some (JVal.obj acc2, rem5)
            | _ => none
        | _ => none
    | _ => none

end

/-- `json.loads`: parse one value and require only whitespace after it. -/
def jsonLoads (s : String) : Option JVal :=
  match parseJVal (s.data.length + 1) s.data with
  | some (v, rem) => if (jsonSkipWs rem).isEmpty then some v else none
  | none => none

/-- JSON string escaping for `json.dumps`. -/
def jsonEscape (s : String) : String :=
  String.mk (s.data.flatMap fun c =>
    if c = '"' then ['\\', '"']
    else if c = '\\' then ['\\', '\\']
    else if c = '\n' then ['\\', 'n']
    else if c = '\t' then ['\\', 't']
    else if c = '\r' then ['\\', 'r']
    else [c])

mutual

/-- `json.dumps` with the default separators. -/
def jsonDumps : JVal → String
  | .null => "null"
  | .bool true => "true"
  | .bool false => "false"
  | .num n => toString n
  | .str s => "\"" ++ jsonEscape s ++ "\""
  | .arr elems => "[" ++ pyJoin ", " (jsonDumpsList elems) ++ "]"
  | .obj items => "\x7b" ++ pyJoin ", " (jsonDumpsItems items) ++ "\x7d"

/-- `dumps` of array elements. -/
def jsonDumpsList : List JVal → List String
  | [] => []
  | v :: rest => jsonDumps v :: jsonDumpsList rest

/-- `dumps` of object members. -/
def jsonDumpsItems : List (String × JVal) → List String
  | [] => []
  | (k, v) :: rest =>
    ("\"" ++ jsonEscape k ++ "\": " ++ jsonDumps v) :: jsonDumpsItems rest

end

/-! ## `result_processor.py` — ResponseReconciler -/

/-- `\{.*\}` with `re.DOTALL` — the JSON-object extraction of
`parse_llm_results`. -/
def braceObjRE : RE :=
  .seq (reChar '\x7b') (.seq (.starCls fun _ => true) (reChar '\x7d'))

/-- `\[.*\]` with `re.DOTALL` — the JSON-array extraction of
`parse_comprehensive_llm_result` and of the hybrid `main`. -/
def bracketArrRE : RE :=
  .seq (reChar '[') (.seq (.starCls fun _ => true) (reChar ']'))

/-- `\n\s*\n|\n-|\n\d+\.` — the section splitter of the text-based
fallback of `parse_llm_results`. -/
def sectionSplitRE : RE :=
  .alt (.seq (reChar '\n') (.seq wsStar (reChar '\n')))
    (.alt (.seq (reChar '\n') (reChar '-'))
      (.seq (reChar '\n') (.seq digitPlus (reChar '.'))))

/-- Characters removed from the front of a fallback answer line
(`^[\d\.\-\*\s]*`). -/
def bulletClass (c : Char) : Bool :=
  c.isDigit || c = '.' || c = '-' || c = '*' || pyIsSpace c

/-- `re.sub(r"^(answer|a):\s*", "", line, flags=re.IGNORECASE)`. -/
def stripAnswerLabel (line : String) : String :=
  let low := pyLower line
  if pyStartsWith low "answer:" then
    String.mk ((line.data.drop 7).dropWhile pyIsSpace)
  else if pyStartsWith low "a:" then
    String.mk ((line.data.drop 2).dropWhile pyIsSpace)
  else line

/-- Inner line loop of the text-based fallback: first sufficiently long
line that does not restate the question and survives cleanup becomes the
answer. -/
def fallbackLineLoop (question : String) : List String → String
  | [] => "Not found"
  | line0 :: rest =>
    let line1 := pyStrip line0
    if line1.length > question.length + 5 ∧
        ¬ pyStartsWith (pyLower line1) (pyTake 10 (pyLower question)) = true then
      let line2 := String.mk (line1.data.dropWhile bulletClass)
      let line3 := stripAnswerLabel line2
      if line3 ≠ "" then line3 else fallbackLineLoop question rest
    else fallbackLineLoop question rest

/-- Section loop of the text-based fallback: the first section containing
one of the question's keywords is scanned for an answer line; later
sections are not considered. -/
def fallbackSectionLoop (question : String) (keywords : List String) :
    List String → String
  | [] => "Not found"
  | section0 :: rest =>
    let section_lower := pyStrip (pyLower section0)
    if keywords.any (fun kw => strContains section_lower kw) then
      fallbackLineLoop question (pySplitChar '\n' (pyStrip section0))
    else fallbackSectionLoop question keywords rest

/-- Text-based fallback of `parse_llm_results` (lines 79–116). -/
def fallbackParse (llm_output : String) (questions : List String) :
    List (String × String) :=
  let sections := reSplit sectionSplitRE llm_output
  questions.map fun question =>
    (question,
      fallbackSectionLoop question ((pyWords (pyLower question)).take 4) sections)

/-- `ResultProcessor.parse_llm_results`: extract the first JSON object from
the output and map each question to an answer; on extraction or parse
failure fall back to text-based parsing. -/
def parse_llm_results (llm_output : String) (questions : List String) :
    List (String × String) :=
  match reSearch braceObjRE llm_output with
  | some m =>
    match jsonLoads (pySlice m.1 m.2 llm_output) with
    | some (JVal.obj parsed_answers) =>
      questions.map fun q => (q, recordedAnswer parsed_answers q)
    | some _ => fallbackParse llm_output questions
    | none => fallbackParse llm_output questions
  | none => fallbackParse llm_output questions

/-- A record of the checkpointed `papers_data.json` as consumed by
`combine_results`. -/
structure PaperData where
  title : String
  arxiv_url : String
  authors : List String
  published : Option String
  categories : List String

/-- One combined result of `combine_results` (the `metadata` sub-dict is
inlined as the last three fields). -/
structure CombinedResult where
  title : String
  arxiv_url : String
  llm_answers : List (String × String)
  authors : List String
  published : Option String
  categories : List String

/-- Assemble one combined record from a paper and its answers. -/
def mkCombined (paper : PaperData) (answers : List (String × String)) :
    CombinedResult :=
  ⟨paper.title, paper.arxiv_url, answers, paper.authors, paper.published,
    paper.categories⟩

/-- Per-paper answer computation of the individual loop of
`combine_results`: empty output and all-unanswered parses degrade to
uniform error answers. -/
def docAnswers (questions : List String) (paper_title llm_output : String) :
    List (String × String) :=
  if pyStrip llm_output = "" then
    questions.map fun q => (q, "Error or not found.")
  else
    let llm_answers := parse_llm_results llm_output questions
    if llm_answers.all (fun qa =>
        qa.2 == "Not found" || qa.2 == "Error or not found." || qa.2 == "") then
      questions.map fun q =>
        (q, "Error: Failed to parse LLM result for " ++ pyTake 50 paper_title ++ "...")
    else llm_answers

/-- The individual-processing loop of `combine_results`
(`zip(papers_data, llm_results, strict=False)`). -/
def individualCombine (papers_data : List PaperData) (llm_results : List String)
    (questions : List String) : List CombinedResult :=
  (papers_data.zip llm_results).map fun pr =>
    mkCombined pr.1 (docAnswers questions pr.1.title pr.2)

/-- Answers of one array element in the comprehensive path. -/
def compAnswersFor (analysis : JVal) (questions : List String) :
    List (String × String) :=
  match analysis with
  | JVal.obj items => questions.map fun q => (q, recordedAnswerComp items q)
  | _ => questions.map fun q => (q, "Error parsing result")

/-- `ResultProcessor.parse_comprehensive_llm_result`: extract a JSON array
and, when its length equals the paper count, one combined record per
(paper, element) pair; otherwise `None`. -/
def parse_comprehensive_llm_result (llm_output : String)
    (papers_data : List PaperData) (questions : List String) :
    Option (List CombinedResult) :=
  match reSearch bracketArrRE llm_output with
  | none => none
  | some m =>
    match jsonLoads (pySlice m.1 m.2 llm_output) with
    | some (JVal.arr parsed_data) =>
      if parsed_data.length = papers_data.length then
        some ((papers_data.zip parsed_data).map fun pa =>
          mkCombined pa.1 (compAnswersFor pa.2 questions))
      else none
    | some _ => none
    | none => none

/-- `ResultProcessor.combine_results`. -/
def combine_results (papers_data : List PaperData) (llm_results : List String)
    (questions : List String) : List CombinedResult :=
  if llm_results.length = 1 ∧ papers_data.length > 1 then
    match parse_comprehensive_llm_result (llm_results.headD "") papers_data
        questions with
    | some comprehensive_result =>
      if comprehensive_result.isEmpty then
        individualCombine papers_data llm_results questions
      else comprehensive_result
    | none => individualCombine papers_data llm_results questions
  else individualCombine papers_data llm_results questions

/-! ## `ciphr_hybrid.py` — result-processing phase of `main` -/

/-- `PAPER_SEPARATOR`. -/
def PAPER_SEPARATOR : String := "---PAPER---"

/-- The padding sentinel of the final count check. -/
def jsonErrorSentinel : String := "\x7b\"error\": \"No LLM result available\"\x7d"

/-- Index of the first occurrence of `needle` in `hay`, if any. -/
def findSubstr (needle : List Char) : List Char → Option Nat
  | [] => if needle.isEmpty then some 0 else none
  | c :: rest =>
    if needle.isPrefixOf (c :: rest) then some 0
    else (findSubstr needle rest).map (· + 1)

/-- Python `s.split(sep)` for a non-empty separator string. -/
def splitOnStrGo (sep : List Char) : Nat → List Char → List (List Char)
  | 0, s => [s]
  | fuel + 1, s =>
    match findSubstr sep s with
    | none => [s]
    | some i => s.take i :: splitOnStrGo sep fuel (s.drop (i + sep.length))

/-- Python `s.split(sep)`. -/
def pySplitOnStr (sep s : String) : List String :=
  if sep.data.isEmpty then [s]
  else (splitOnStrGo sep.data (s.data.length + 1) s.data).map String.mk

/-- Shape detection of the hybrid `main` (lines 322–368): separator-split,
else JSON array, else single block; `json` errors fall back to the
separator split or the whole content. -/
def parseBlob (content : String) : List String :=
  if strContains content PAPER_SEPARATOR then
    ((pySplitOnStr PAPER_SEPARATOR content).map pyStrip).filter (fun r => r ≠ "")
  else if pyStartsWith (pyStrip content) "[" then
    match reSearch bracketArrRE content with
    | some m =>
      match jsonLoads (pySlice m.1 m.2 content) with
      | some (JVal.arr parsed_data) =>
        parsed_data.map fun item =>
          match item with
          | JVal.obj _ => jsonDumps item
          | _ => pyStr item
      | some parsed_data => [jsonDumps parsed_data]
      | none => [content]
    | none => []
  else [content]

/-- Final count check of the hybrid `main` (lines 370–381): pad with the
error sentinel, or truncate the excess from the end. -/
def adjustResults (llm_results_parsed : List String) (n : Nat) : List String :=
  if llm_results_parsed.length ≠ n then
    if llm_results_parsed.length < n then
      llm_results_parsed ++
        List.replicate (n - llm_results_parsed.length) jsonErrorSentinel
    else llm_results_parsed.take n
  else llm_results_parsed

/-- The result-processing phase of the hybrid `main`: shape detection,
count reconciliation, combination. -/
def processPipeline (content : String) (papers_data : List PaperData)
    (questions : List String) : List CombinedResult :=
  combine_results papers_data (adjustResults (parseBlob content) papers_data.length)
    questions

/-! ## C1/C4 — count reconciliation and the single-block shape -/

theorem length_adjustResults (l : List String) (n : Nat) :
    (adjustResults l n).length = n := by
  unfold adjustResults
  by_cases h : l.length = n
  · simp [h]
  · rw [if_pos h]
    by_cases h2 : l.length < n
    · rw [if_pos h2, List.length_append, List.length_replicate]
      omega
    · rw [if_neg h2, List.length_take]
      omega

theorem length_individualCombine (p : List PaperData) (l : List String)
    (q : List String) :
    (individualCombine p l q).length = min p.length l.length := by
  simp [individualCombine, List.length_zip]

theorem parse_comprehensive_length {o : String} {p : List PaperData}
    {q : List String} {r : List CombinedResult}
    (h : parse_comprehensive_llm_result o p q = some r) :
    r.length = p.length := by
  unfold parse_comprehensive_llm_result at h
  split at h
  · exact absurd h (by simp)
  · split at h
    · split at h
      · injection h with h
        subst h
        simp_all [List.length_zip]
      · exact absurd h (by simp)
    · exact absurd h (by simp)
    · exact absurd h (by simp)

theorem length_combine_results {p : List PaperData} {l : List String}
    (q : List String) (h : l.length = p.length) :
    (combine_results p l q).length = p.length := by
  unfold combine_results
  by_cases hc : l.length = 1 ∧ p.length > 1
  · omega
  · rw [if_neg hc, length_individualCombine, h, min_self]

/-- **C1.** For every raw LLM-results blob and every non-empty paper list,
the pipeline produces exactly one combined result per paper: a short parse
is padded at the tail with the sentinel `{"error": "No LLM result
available"}`, a long one is truncated from the end, and the combined count
equals the paper count. -/
theorem c1_count_invariant (content : String) (papers_data : List PaperData)
    (questions : List String) (_h : papers_data ≠ []) :
    (processPipeline content papers_data questions).length =
      papers_data.length ∧
    ((parseBlob content).length < papers_data.length →
      adjustResults (parseBlob content) papers_data.length =
        parseBlob content ++
          List.replicate (papers_data.length - (parseBlob content).length)
            jsonErrorSentinel) ∧
    (papers_data.length < (parseBlob content).length →
      adjustResults (parseBlob content) papers_data.length =
        (parseBlob content).take papers_data.length) := by
  refine ⟨?_, fun hlt => ?_, fun hgt => ?_⟩
  · exact length_combine_results questions (length_adjustResults _ _)
  · unfold adjustResults
    rw [if_pos (by omega), if_pos hlt]
  · unfold adjustResults
    rw [if_pos (by omega), if_neg (by omega)]

/-- Witness for C1: two papers, a blob that parses into one segment; the
pipeline still produces two combined results. -/
theorem c1_count_invariant_witness :
    ([(⟨"A", "u1", [], none, []⟩ : PaperData), ⟨"B", "u2", [], none, []⟩] ≠
      ([] : List PaperData)) ∧
    (processPipeline "hello"
        [⟨"A", "u1", [], none, []⟩, ⟨"B", "u2", [], none, []⟩]
        ["alpha beta"]).length = 2 := by
  refine ⟨by simp, ?_⟩
  exact (c1_count_invariant "hello"
    [⟨"A", "u1", [], none, []⟩, ⟨"B", "u2", [], none, []⟩]
    ["alpha beta"] (by simp)).1

/-- **C4 (counterexample).** Two papers, blob `"hello"` (no separator, not
starting with `[`): the two documents do NOT receive the same answer-set —
the first is derived from the blob, the second from the padding sentinel,
and they even differ textually (each error mentions its own title). -/
theorem c4_counterexample :
    ((processPipeline "hello"
        [⟨"A", "http://arxiv.org/abs/a", [], none, []⟩,
         ⟨"B", "http://arxiv.org/abs/b", [], none, []⟩]
        ["alpha beta"]).map fun r => r.llm_answers) =
      [[("alpha beta", "Error: Failed to parse LLM result for A...")],
       [("alpha beta", "Error: Failed to parse LLM result for B...")]] ∧
    strContains "hello" PAPER_SEPARATOR = false ∧
    pyStartsWith (pyStrip "hello") "[" = false ∧
    [("alpha beta", "Error: Failed to parse LLM result for A...")] ≠
      [("alpha beta", "Error: Failed to parse LLM result for B...")] := by
  refine ⟨by decide, by decide, by decide, by decide⟩

/-- **C4 (amended).** In the single-block shape with more than one
document, the blob is parsed as one segment; after sentinel padding, the
FIRST document's answers are derived from the whole blob while every
subsequent document's answers are derived from the padding sentinel
`{"error": "No LLM result available"}` (not from the blob). -/
theorem c4_single_block_behavior (content : String)
    (papers_data : List PaperData) (questions : List String)
    (hn : papers_data.length > 1)
    (hsep : strContains content PAPER_SEPARATOR = false)
    (hbr : pyStartsWith (pyStrip content) "[" = false) :
    parseBlob content = [content] ∧
    adjustResults (parseBlob content) papers_data.length =
      content :: List.replicate (papers_data.length - 1) jsonErrorSentinel ∧
    processPipeline content papers_data questions =
      individualCombine papers_data
        (content :: List.replicate (papers_data.length - 1) jsonErrorSentinel)
        questions ∧
    (∀ r ∈ (processPipeline content papers_data questions).drop 1,
      ∃ p ∈ papers_data,
        r.llm_answers = docAnswers questions p.title jsonErrorSentinel) := by
  have hblob : parseBlob content = [content] := by
    unfold parseBlob
    rw [if_neg (by simp [hsep]), if_neg (by simp [hbr])]
  have hadj : adjustResults (parseBlob content) papers_data.length =
      content :: List.replicate (papers_data.length - 1) jsonErrorSentinel := by
    rw [hblob]
    unfold adjustResults
    rw [if_pos (by simp; omega), if_pos (by simp; omega)]
    simp
  have hllm : (content :: List.replicate (papers_data.length - 1)
      jsonErrorSentinel).length = papers_data.length := by
    simp; omega
  have hpipe : processPipeline content papers_data questions =
      individualCombine papers_data
        (content :: List.replicate (papers_data.length - 1) jsonErrorSentinel)
        questions := by
    unfold processPipeline
    rw [hadj]
    unfold combine_results
    rw [if_neg (by rw [hllm]; omega)]
  refine ⟨hblob, hadj, hpipe, ?_⟩
  intro r hr
  rw [hpipe] at hr
  cases papers_data with
  | nil => simp at hn
  | cons p0 prest =>
    unfold individualCombine at hr
    simp only [List.length_cons, Nat.add_sub_cancel] at hr
    rw [List.zip_cons_cons, List.map_cons, List.drop_succ_cons, List.drop_zero]
      at hr
    obtain ⟨⟨p, o⟩, hmem, rfl⟩ := List.mem_map.mp hr
    have hz := List.of_mem_zip hmem
    have ho : o = jsonErrorSentinel := List.eq_of_mem_replicate hz.2
    exact ⟨p, List.mem_cons_of_mem _ hz.1, by subst ho; rfl⟩

/-- Witness for C4 (amended) at the concrete counterexample input. -/
theorem c4_single_block_behavior_witness :
    parseBlob "hello" = ["hello"] ∧
    processPipeline "hello"
        [⟨"A", "u1", [], none, []⟩, ⟨"B", "u2", [], none, []⟩] ["alpha beta"] =
      individualCombine
        [⟨"A", "u1", [], none, []⟩, ⟨"B", "u2", [], none, []⟩]
        ["hello", jsonErrorSentinel] ["alpha beta"] := by
  have h := c4_single_block_behavior "hello"
    [⟨"A", "u1", [], none, []⟩, ⟨"B", "u2", [], none, []⟩] ["alpha beta"]
    (by decide) (by decide) (by decide)
  exact ⟨h.1, h.2.2.1⟩

/-! ## `result_processor.py` — StoreWriter (markdown table generation and
`save_results`) -/

/-- `result["llm_answers"].get(question, "N/A")`. -/
def answerFor (r : CombinedResult) (q : String) : String :=
  match r.llm_answers.lookup q with
  | some a => a
  | none => "N/A"

/-- The header cells of `generate_markdown_table`:
`["Paper Title", "arXiv Link"] + [q.replace("\n", " ") for q in questions]`. -/
def tableHeaders (questions : List String) : List String :=
  ["Paper Title", "arXiv Link"] ++ questions.map pyReplaceNl

/-- One data row: `title | [Link](url) | answer…` with newlines in answers
replaced by spaces. -/
def tableRow (questions : List String) (r : CombinedResult) : String :=
  pyJoin " | " ([r.title, "[Link](" ++ r.arxiv_url ++ ")"] ++
    questions.map fun q => pyReplaceNl (answerFor r q))

/-- `ResultProcessor.generate_markdown_table`. -/
def generate_markdown_table (results : List CombinedResult)
    (questions : List String) (include_header : Bool) : String :=
  if results.isEmpty then "No results to display."
  else
    (if include_header then
      pyJoin " | " (tableHeaders questions) ++ "\n" ++
        pyJoin " | " ((tableHeaders questions).map fun h =>
          String.mk (List.replicate h.length '-')) ++ "\n"
    else "") ++
      String.join (results.map fun r => tableRow questions r ++ "\n")

/-- `ResultProcessor.extract_questions_from_existing_file`, as a function of
the file's content: parse the first line as a pipe-delimited header, drop
the first two columns, discard empty cells. -/
def extract_questions_from_content (content : String) : List String :=
  if content.data.isEmpty then []
  else
    let header_line := pyStrip ((pySplitChar '\n' content).headD "")
    let headers := (pySplitChar '|' header_line).map pyStrip
    if headers.length ≥ 2 then
      (headers.drop 2).filter (fun q => q ≠ "")
    else []

/-- The new data lines computed by the prepend branch of `save_results`. -/
def newDataLines (results : List CombinedResult) (questions : List String) :
    List String :=
  let new_markdown_table := generate_markdown_table results questions false
  if pyStrip new_markdown_table ≠ "" then
    pySplitChar '\n' (pyStrip new_markdown_table)
  else []

/-- The content written by `ResultProcessor.save_results`: in append mode
(`existing = some content`, i.e. the target filename equals the base
filename and the file exists) the existing content is split into header,
separator and data lines and the new rows are inserted directly under the
separator; a malformed or absent store gets a fresh full table. -/
def save_results_content (existing : Option String)
    (results : List CombinedResult) (questions : List String) : String :=
  match existing with
  | some existing_content =>
    match pySplitChar '\n' (pyStrip existing_content) with
    | header_line :: separator_line :: existing_data_lines =>
      pyJoin "\n" ([header_line, separator_line] ++
        newDataLines results questions ++ existing_data_lines) ++ "\n"
    | _ => generate_markdown_table results questions true
  | none => generate_markdown_table results questions true

/-! ### List-level lemmas about splitting and joining -/

theorem splitOnP_pieces_no_p (p : Char → Bool) (l : List Char) :
    ∀ x ∈ l.splitOnP p, ∀ a ∈ x, ¬ p a = true := by
  induction l with
  | nil =>
    intro x hx
    rw [List.splitOnP_nil] at hx
    rcases List.mem_singleton.mp hx with rfl
    intro a ha; exact absurd ha (List.not_mem_nil a)
  | cons c cs ih =>
    intro x hx
    rw [List.splitOnP_cons] at hx
    by_cases hc : p c = true
    · rw [if_pos hc] at hx
      rcases List.mem_cons.mp hx with rfl | hx2
      · intro a ha; exact absurd ha (List.not_mem_nil a)
      · exact ih x hx2
    · rw [if_neg hc] at hx
      cases hsp : cs.splitOnP p with
      | nil => exact absurd hsp (List.splitOnP_ne_nil _ _)
      | cons hd tl =>
        rw [hsp, List.modifyHead_cons] at hx
        rcases List.mem_cons.mp hx with rfl | hx2
        · intro a ha
          rcases List.mem_cons.mp ha with rfl | ha2
          · exact hc
          · exact ih hd (by rw [hsp]; exact List.mem_cons_self hd tl) a ha2
        · exact ih x (by rw [hsp]; exact List.mem_cons_of_mem hd hx2)

theorem splitOn_pieces_no_sep {c : Char} {l x : List Char}
    (hx : x ∈ l.splitOn c) : c ∉ x := by
  intro hcx
  have := splitOnP_pieces_no_p (· == c) l x hx c hcx
  simp at this

/-- Pieces of `pySplitChar` never contain the separator. -/
theorem mem_pySplitChar_no_sep {c : Char} {s piece : String}
    (hp : piece ∈ pySplitChar c s) : c ∉ piece.data := by
  obtain ⟨x, hx, rfl⟩ := List.mem_map.mp hp
  exact splitOn_pieces_no_sep hx

theorem intercalate_cons_cons₂ (sep a b : List Char) (t : List (List Char)) :
    List.intercalate sep (a :: b :: t) =
      a ++ sep ++ List.intercalate sep (b :: t) := by
  simp [List.intercalate, List.intersperse_cons_cons]

theorem intercalate_one (sep a : List Char) :
    List.intercalate sep [a] = a := by
  simp [List.intercalate]

theorem intercalate_append_empty (s : Char) (L : List (List Char))
    (hne : L ≠ []) :
    List.intercalate [s] (L ++ [[]]) = List.intercalate [s] L ++ [s] := by
  induction L with
  | nil => exact absurd rfl hne
  | cons a t ih =>
    cases t with
    | nil =>
      show List.intercalate [s] [a, []] = List.intercalate [s] [a] ++ [s]
      rw [intercalate_cons_cons₂, intercalate_one, intercalate_one]
      simp
    | cons b t2 =>
      have h1 : (a :: b :: t2) ++ [[]] = a :: b :: (t2 ++ [[]]) := by simp
      have h2 : b :: (t2 ++ [[]]) = (b :: t2) ++ [[]] := by simp
      rw [h1, intercalate_cons_cons₂, h2, ih (by simp),
        intercalate_cons_cons₂]
      simp [List.append_assoc]

/-- Re-splitting a newline-joined list of newline-free lines (plus a final
newline) recovers the lines and a final empty piece. -/
theorem pySplit_join_newline (parts : List String) (hne : parts ≠ [])
    (h : ∀ s ∈ parts, '\n' ∉ s.data) :
    pySplitChar '\n' (pyJoin "\n" parts ++ "\n") = parts ++ [""] := by
  have hdata : (pyJoin "\n" parts ++ "\n").data =
      List.intercalate ['\n'] (parts.map String.data ++ [[]]) := by
    rw [String.data_append]
    show List.intercalate ['\n'] (parts.map String.data) ++ ['\n'] = _
    rw [intercalate_append_empty '\n' (parts.map String.data)
      (by simpa using hne)]
  have hx : ∀ l ∈ parts.map String.data ++ [[]], '\n' ∉ l := by
    intro l hl
    rcases List.mem_append.mp hl with hl1 | hl2
    · obtain ⟨s, hs, rfl⟩ := List.mem_map.mp hl1
      exact h s hs
    · rcases List.mem_singleton.mp hl2 with rfl
      exact List.not_mem_nil _
  unfold pySplitChar
  rw [hdata, List.splitOn_intercalate _ '\n' hx (by simp)]
  rw [List.map_append, List.map_map]
  congr 1
  exact List.map_id'' (fun s => rfl) parts

/-- **C6.** When the existing store content splits (after stripping) into a
header line, a separator line and data lines, `save_results` in append mode
writes back a file whose lines are exactly: the header, the separator, the
newly generated data rows, then all previously existing data lines
unchanged and in their original order (plus the final empty piece from the
trailing newline). -/
theorem c6_append_layout (existing_content : String)
    (results : List CombinedResult) (questions : List String)
    (header separator : String) (old : List String)
    (hsplit : pySplitChar '\n' (pyStrip existing_content) =
      header :: separator :: old) :
    pySplitChar '\n'
        (save_results_content (some existing_content) results questions) =
      (header :: separator :: (newDataLines results questions ++ old)) ++ [""] := by
  have hred : save_results_content (some existing_content) results questions =
      (match pySplitChar '\n' (pyStrip existing_content) with
        | header_line :: separator_line :: existing_data_lines =>
          pyJoin "\n" ([header_line, separator_line] ++
            newDataLines results questions ++ existing_data_lines) ++ "\n"
        | _ => generate_markdown_table results questions true) := rfl
  have hout : save_results_content (some existing_content) results questions =
      pyJoin "\n" ([header, separator] ++ newDataLines results questions ++ old)
        ++ "\n" := by
    rw [hred, hsplit]
  rw [hout]
  have hparts : ([header, separator] ++ newDataLines results questions ++ old)
      ≠ [] := by simp
  rw [pySplit_join_newline _ hparts ?hnl]
  · simp
  case hnl =>
    intro s hs
    rcases List.mem_append.mp hs with hs1 | hold
    · rcases List.mem_append.mp hs1 with hs2 | hnew
      · rcases List.mem_cons.mp hs2 with rfl | hs3
        · exact mem_pySplitChar_no_sep (by rw [hsplit]; exact List.mem_cons_self _ _)
        · rcases List.mem_singleton.mp hs3 with rfl
          exact mem_pySplitChar_no_sep
            (by rw [hsplit]; exact List.mem_cons_of_mem _ (List.mem_cons_self _ _))
      · unfold newDataLines at hnew
        by_cases hne2 : pyStrip (generate_markdown_table results questions false) ≠ ""
        · rw [if_pos hne2] at hnew
          exact mem_pySplitChar_no_sep hnew
        · rw [if_neg hne2] at hnew
          exact absurd hnew (List.not_mem_nil s)
    · exact mem_pySplitChar_no_sep
        (by rw [hsplit]
            exact List.mem_cons_of_mem _ (List.mem_cons_of_mem _ hold))

set_option maxRecDepth 4096 in
/-- Witness for C6 at a concrete store: one new row lands directly under
the separator, above the old row. -/
theorem c6_append_layout_witness :
    pySplitChar '\n'
        (save_results_content
          (some "Paper Title | arXiv Link | Q1\n---------- | ---------- | --\nOld | [Link](u0) | a0\n")
          [⟨"New", "u1", [("Q1", "a1")], [], none, []⟩] ["Q1"]) =
      ["Paper Title | arXiv Link | Q1", "---------- | ---------- | --",
        "New | [Link](u1) | a1", "Old | [Link](u0) | a0", ""] := by
  have h := c6_append_layout
    "Paper Title | arXiv Link | Q1\n---------- | ---------- | --\nOld | [Link](u0) | a0\n"
    [⟨"New", "u1", [("Q1", "a1")], [], none, []⟩] ["Q1"]
    "Paper Title | arXiv Link | Q1" "---------- | ---------- | --"
    ["Old | [Link](u0) | a0"] (by decide)
  rw [h]
  decide

/-! ### Lemmas about `strip` and pipe-splitting, for the header round trip -/

theorem stripRight_ws_nil {t : List Char} (ht : ∀ a ∈ t, pyIsSpace a = true) :
    stripRight t = [] := by
  induction t with
  | nil => rfl
  | cons c cs ih =>
    have hcs := ih fun a ha => ht a (List.mem_cons_of_mem _ ha)
    simp [stripRight, hcs, ht c (List.mem_cons_self _ _)]

theorem stripRight_append_ws {t : List Char} (ht : ∀ a ∈ t, pyIsSpace a = true)
    (y : List Char) : stripRight (y ++ t) = stripRight y := by
  induction y with
  | nil => simpa using stripRight_ws_nil ht
  | cons c y ih => simp [stripRight, ih]

theorem stripL_append_ws {t : List Char} (ht : ∀ a ∈ t, pyIsSpace a = true)
    (y : List Char) : stripL (y ++ t) = stripL y := by
  unfold stripL
  rw [List.dropWhile_append]
  by_cases hy : (y.dropWhile pyIsSpace).isEmpty
  · rw [if_pos hy, List.dropWhile_eq_nil_iff.mpr ht]
    have h0 : y.dropWhile pyIsSpace = [] := by
      cases h : y.dropWhile pyIsSpace
      · rfl
      · rw [h] at hy; exact absurd hy (by simp)
    rw [h0]
  · rw [if_neg hy]
    exact stripRight_append_ws ht _

theorem dropWhile_ws_append {t : List Char} (ht : ∀ a ∈ t, pyIsSpace a = true)
    (y : List Char) :
    (t ++ y).dropWhile pyIsSpace = y.dropWhile pyIsSpace := by
  induction t with
  | nil => rfl
  | cons c cs ih =>
    rw [List.cons_append,
      List.dropWhile_cons_of_pos (ht c (List.mem_cons_self _ _))]
    exact ih fun a ha => ht a (List.mem_cons_of_mem _ ha)

theorem stripL_ws_prefix {t : List Char} (ht : ∀ a ∈ t, pyIsSpace a = true)
    (y : List Char) : stripL (t ++ y) = stripL y := by
  unfold stripL
  rw [dropWhile_ws_append ht]

theorem stripRight_decomp (l : List Char) :
    ∃ t, l = stripRight l ++ t ∧ ∀ a ∈ t, pyIsSpace a = true := by
  induction l with
  | nil => exact ⟨[], rfl, by simp⟩
  | cons c cs ih =>
    obtain ⟨t, ht1, ht2⟩ := ih
    by_cases h : stripRight cs = [] ∧ pyIsSpace c
    · refine ⟨c :: t, ?_, ?_⟩
      · have hz : stripRight (c :: cs) = [] := by
          simp only [stripRight]
          rw [if_pos h]
        rw [hz, List.nil_append]
        have : cs = t := by
          conv_lhs => rw [ht1, h.1, List.nil_append]
        rw [this]
      · intro a ha
        rcases List.mem_cons.mp ha with rfl | ha2
        · exact h.2
        · exact ht2 a ha2
    · refine ⟨t, ?_, ht2⟩
      have hz : stripRight (c :: cs) = c :: stripRight cs := by
        simp only [stripRight]
        rw [if_neg h]
      rw [hz, List.cons_append, ← ht1]

theorem splitOn_append_right {c : Char} {t : List Char} (ht : c ∉ t)
    (l : List Char) : ∃ L last, l.splitOn c = L ++ [last] ∧
      (l ++ t).splitOn c = L ++ [last ++ t] := by
  induction l with
  | nil =>
    refine ⟨[], [], by simp [List.splitOn], ?_⟩
    show List.splitOnP (· == c) t = [] ++ [[] ++ t]
    rw [List.splitOnP_eq_single _ _ fun x hx => by
      simp only [beq_iff_eq]
      rintro rfl
      exact ht hx]
    simp
  | cons a l ih =>
    obtain ⟨L, last, h1, h2⟩ := ih
    by_cases ha : (a == c) = true
    · refine ⟨[] :: L, last, ?_, ?_⟩
      · show List.splitOnP (· == c) (a :: l) = ([] :: L) ++ [last]
        rw [List.splitOnP_cons, if_pos ha,
          show List.splitOnP (· == c) l = l.splitOn c from rfl, h1]
        rfl
      · show List.splitOnP (· == c) (a :: l ++ t) = ([] :: L) ++ [last ++ t]
        rw [List.cons_append, List.splitOnP_cons, if_pos ha,
          show List.splitOnP (· == c) (l ++ t) = (l ++ t).splitOn c from rfl, h2]
        rfl
    · cases L with
      | nil =>
        refine ⟨[], a :: last, ?_, ?_⟩
        · show List.splitOnP (· == c) (a :: l) = [] ++ [a :: last]
          rw [List.splitOnP_cons, if_neg ha,
            show List.splitOnP (· == c) l = l.splitOn c from rfl, h1]
          rfl
        · show List.splitOnP (· == c) (a :: l ++ t) = [] ++ [(a :: last) ++ t]
          rw [List.cons_append, List.splitOnP_cons, if_neg ha,
            show List.splitOnP (· == c) (l ++ t) = (l ++ t).splitOn c from rfl, h2]
          rfl
      | cons L0 Lr =>
        refine ⟨(a :: L0) :: Lr, last, ?_, ?_⟩
        · show List.splitOnP (· == c) (a :: l) = ((a :: L0) :: Lr) ++ [last]
          rw [List.splitOnP_cons, if_neg ha,
            show List.splitOnP (· == c) l = l.splitOn c from rfl, h1]
          rfl
        · show List.splitOnP (· == c) (a :: l ++ t) = ((a :: L0) :: Lr) ++ [last ++ t]
          rw [List.cons_append, List.splitOnP_cons, if_neg ha,
            show List.splitOnP (· == c) (l ++ t) = (l ++ t).splitOn c from rfl, h2]
          rfl

theorem splitOn_append_left {c : Char} :
    ∀ (t l : List Char), c ∉ t →
      ∃ h tl, l.splitOn c = h :: tl ∧ (t ++ l).splitOn c = (t ++ h) :: tl
  | [], l, _ => by
    cases hsp : l.splitOn c with
    | nil => exact absurd hsp (List.splitOnP_ne_nil _ _)
    | cons h tl => exact ⟨h, tl, rfl, by simpa using hsp⟩
  | a :: t, l, ht => by
    obtain ⟨h, tl, h1, h2⟩ :=
      splitOn_append_left t l fun hc => ht (List.mem_cons_of_mem _ hc)
    have ha : ¬(a == c) = true := by
      simp only [beq_iff_eq]
      rintro rfl
      exact ht (List.mem_cons_self _ _)
    refine ⟨h, tl, h1, ?_⟩
    show List.splitOnP (· == c) (a :: (t ++ l)) = ((a :: t) ++ h) :: tl
    rw [List.splitOnP_cons, if_neg ha,
      show List.splitOnP (· == c) (t ++ l) = (t ++ l).splitOn c from rfl, h2,
      List.modifyHead_cons]
    rfl

theorem pipe_not_ws : pyIsSpace '|' = false := rfl

/-- Splitting a `" | "`-joined row on `'|'` and stripping each piece
recovers the stripped cells, provided no cell contains a pipe. -/
theorem splitPipe_intercalate (cells : List (List Char)) :
    cells ≠ [] → (∀ x ∈ cells, '|' ∉ x) →
    ((List.intercalate [' ', '|', ' '] cells).splitOn '|').map stripL =
      cells.map stripL := by
  induction cells with
  | nil => intro h _; exact absurd rfl h
  | cons x rest ih =>
    intro _ hp
    cases rest with
    | nil =>
      rw [intercalate_one]
      show (List.splitOnP (· == '|') x).map stripL = [x].map stripL
      rw [List.splitOnP_eq_single _ _ fun a ha => by
        simp only [beq_iff_eq]
        rintro rfl
        exact hp x (List.mem_cons_self _ _) ha]
    | cons y rest2 =>
      rw [intercalate_cons_cons₂]
      have hre : x ++ [' ', '|', ' '] ++
          List.intercalate [' ', '|', ' '] (y :: rest2) =
          (x ++ [' ']) ++ '|' ::
            (' ' :: List.intercalate [' ', '|', ' '] (y :: rest2)) := by
        simp
      rw [hre]
      show (List.splitOnP (· == '|') _).map stripL = _
      rw [List.splitOnP_first _ _ (fun a ha => by
        simp only [beq_iff_eq]
        rintro rfl
        rcases List.mem_append.mp ha with h1 | h2
        · exact hp x (List.mem_cons_self _ _) h1
        · simp only [List.mem_singleton] at h2
          exact absurd h2 (by decide)) '|' (by simp) _]
      rw [List.map_cons]
      have hx : stripL (x ++ [' ']) = stripL x :=
        stripL_append_ws (t := [' ']) (by decide) x
      rw [hx]
      show _ = (x :: y :: rest2).map stripL
      rw [List.map_cons]
      congr 1
      obtain ⟨h, tl, h1, h2⟩ := splitOn_append_left (c := '|') [' ']
        (List.intercalate [' ', '|', ' '] (y :: rest2)) (by decide)
      show (List.splitOn '|' _).map stripL = _
      have hcons : (' ' :: List.intercalate [' ', '|', ' '] (y :: rest2)) =
          [' '] ++ List.intercalate [' ', '|', ' '] (y :: rest2) := rfl
      rw [hcons, h2, List.map_cons]
      have hstrip : stripL ([' '] ++ h) = stripL h :=
        stripL_ws_prefix (t := [' ']) (by decide) h
      rw [hstrip, ← List.map_cons, ← h1]
      exact ih (by simp) fun z hz => hp z (List.mem_cons_of_mem _ hz)

/-- The full stripped round trip: strip the joined line, split on `'|'`,
strip each piece — provided the first cell starts with a non-whitespace
character and no cell contains a pipe. -/
theorem splitPipe_intercalate_strip (hd : Char) (hdrest : List Char)
    (rest : List (List Char))
    (hpipe : ∀ x ∈ (hd :: hdrest) :: rest, '|' ∉ x)
    (hhd : pyIsSpace hd = false) :
    ((stripL (List.intercalate [' ', '|', ' '] ((hd :: hdrest) :: rest))).splitOn
        '|').map stripL =
      ((hd :: hdrest) :: rest).map stripL := by
  set line := List.intercalate [' ', '|', ' '] ((hd :: hdrest) :: rest)
    with hline
  have hstart : ∃ l2, line = hd :: l2 := by
    cases rest with
    | nil => rw [hline, intercalate_one]; exact ⟨hdrest, rfl⟩
    | cons y r2 =>
      rw [hline, intercalate_cons_cons₂]
      exact ⟨hdrest ++ ([' ', '|', ' '] ++ List.intercalate [' ', '|', ' '] (y :: r2)),
        by simp⟩
  obtain ⟨l2, hl2⟩ := hstart
  have hsl : stripL line = stripRight line := by
    unfold stripL
    rw [hl2, List.dropWhile_cons_of_neg (by simp [hhd])]
  obtain ⟨t, ht1, ht2⟩ := stripRight_decomp line
  have hpt : '|' ∉ t := fun hmem => by
    have := ht2 '|' hmem
    rw [pipe_not_ws] at this
    exact absurd this (by simp)
  obtain ⟨L, last, hs1, hs2⟩ := splitOn_append_right hpt (stripRight line)
  have hlineSplit : line.splitOn '|' = L ++ [last ++ t] := by
    conv_lhs => rw [ht1]
    exact hs2
  have hmapEq : ((stripRight line).splitOn '|').map stripL =
      (line.splitOn '|').map stripL := by
    rw [hs1, hlineSplit, List.map_append, List.map_append]
    congr 1
    simp only [List.map_cons, List.map_nil]
    rw [stripL_append_ws ht2]
  rw [hsl, hmapEq, hline]
  exact splitPipe_intercalate _ (by simp) hpipe

theorem replaceNl_no_newline (s : String) : '\n' ∉ (pyReplaceNl s).data := by
  intro hmem
  obtain ⟨a, _, ha⟩ := List.mem_map.mp hmem
  by_cases h : a = '\n'
  · rw [if_pos h] at ha; exact absurd ha (by decide)
  · rw [if_neg h] at ha; exact h ha

theorem replaceNl_no_pipe {s : String} (h : '|' ∉ s.data) :
    '|' ∉ (pyReplaceNl s).data := by
  intro hmem
  obtain ⟨a, hain, ha⟩ := List.mem_map.mp hmem
  by_cases h2 : a = '\n'
  · rw [if_pos h2] at ha; exact absurd ha (by decide)
  · rw [if_neg h2] at ha; exact h (ha ▸ hain)

theorem mem_intercalate {a : Char} {sep : List Char} :
    ∀ {L : List (List Char)}, a ∈ List.intercalate sep L →
      a ∈ sep ∨ ∃ l ∈ L, a ∈ l := by
  intro L
  induction L with
  | nil => intro h; simp [List.intercalate] at h
  | cons x rest ih =>
    cases rest with
    | nil =>
      intro h
      rw [intercalate_one] at h
      exact Or.inr ⟨x, by simp, h⟩
    | cons y r2 =>
      intro h
      rw [intercalate_cons_cons₂] at h
      rcases List.mem_append.mp h with h1 | h2
      · rcases List.mem_append.mp h1 with h3 | h4
        · exact Or.inr ⟨x, by simp, h3⟩
        · exact Or.inl h4
      · rcases ih h2 with h5 | ⟨l, hl, hal⟩
        · exact Or.inl h5
        · exact Or.inr ⟨l, List.mem_cons_of_mem _ hl, hal⟩

theorem pyJoin_no_char {c : Char} {sep : String} {parts : List String}
    (hsep : c ∉ sep.data) (h : ∀ p ∈ parts, c ∉ p.data) :
    c ∉ (pyJoin sep parts).data := by
  intro hmem
  rcases mem_intercalate hmem with h1 | ⟨l, hl, hal⟩
  · exact hsep h1
  · obtain ⟨p, hp, rfl⟩ := List.mem_map.mp hl
    exact h p hp hal

theorem tableHeaders_no_newline (questions : List String) :
    ∀ p ∈ tableHeaders questions, '\n' ∉ p.data := by
  intro p hp
  rcases List.mem_append.mp hp with h1 | h2
  · rcases List.mem_cons.mp h1 with rfl | h3
    · decide
    · rcases List.mem_singleton.mp h3 with rfl
      decide
  · obtain ⟨q, _, rfl⟩ := List.mem_map.mp h2
    exact replaceNl_no_newline q

/-- Splitting the stripped header line on pipes and stripping each cell
recovers the stripped cells (stated over an opaque `line` whose characters
are the joined cells). -/
theorem pySplit_strip_header (line : String) (hd : Char) (hdrest : List Char)
    (rest : List (List Char))
    (hline : line.data = List.intercalate [' ', '|', ' '] ((hd :: hdrest) :: rest))
    (hpipe : ∀ x ∈ (hd :: hdrest) :: rest, '|' ∉ x)
    (hhd : pyIsSpace hd = false) :
    (pySplitChar '|' (pyStrip line)).map pyStrip =
      ((hd :: hdrest) :: rest).map fun l => String.mk (stripL l) := by
  have h1 : (pySplitChar '|' (pyStrip line)).map pyStrip =
      ((stripL line.data).splitOn '|').map fun l => String.mk (stripL l) := by
    unfold pySplitChar pyStrip
    rw [List.map_map]
    rfl
  rw [h1, hline]
  have key := splitPipe_intercalate_strip hd hdrest rest hpipe hhd
  calc ((stripL (List.intercalate [' ', '|', ' '] ((hd :: hdrest) :: rest))).splitOn
        '|').map (fun l => String.mk (stripL l))
      = (((stripL (List.intercalate [' ', '|', ' ']
          ((hd :: hdrest) :: rest))).splitOn '|').map stripL).map String.mk := by
        rw [List.map_map]; rfl
    _ = (((hd :: hdrest) :: rest).map stripL).map String.mk := by rw [key]
    _ = ((hd :: hdrest) :: rest).map (fun l => String.mk (stripL l)) := by
        rw [List.map_map]; rfl

/-- **C7 (amended).** Writing a store with header and re-parsing the first
line recovers the normalized question list, provided every question is
pipe-free and normalizes to a non-empty string. -/
theorem c7_header_roundtrip (results : List CombinedResult)
    (questions : List String) (hres : results ≠ [])
    (hq : ∀ q ∈ questions, '|' ∉ q.data ∧ normalizeQuestion q ≠ "") :
    extract_questions_from_content
        (generate_markdown_table results questions true) =
      questions.map normalizeQuestion := by
  obtain ⟨headerLine, hHL⟩ : ∃ x, pyJoin " | " (tableHeaders questions) = x :=
    ⟨_, rfl⟩
  obtain ⟨restStr, hRS⟩ : ∃ x,
      pyJoin " | " ((tableHeaders questions).map fun h =>
        String.mk (List.replicate h.length '-')) ++ "\n" ++
        String.join (results.map fun r => tableRow questions r ++ "\n") = x :=
    ⟨_, rfl⟩
  have hHLdata : headerLine.data =
      List.intercalate [' ', '|', ' '] ((tableHeaders questions).map String.data) := by
    have h0 : (pyJoin " | " (tableHeaders questions)).data =
        List.intercalate [' ', '|', ' ']
          ((tableHeaders questions).map String.data) := rfl
    rw [hHL] at h0
    exact h0
  have hTH0 : (tableHeaders questions).map String.data =
      "Paper Title".data :: "arXiv Link".data ::
        (questions.map pyReplaceNl).map String.data := rfl
  have hPT : "Paper Title".data = 'P' :: "aper Title".data := rfl
  have hTH : (tableHeaders questions).map String.data =
      ('P' :: "aper Title".data) :: "arXiv Link".data ::
        (questions.map pyReplaceNl).map String.data := by
    rw [hTH0, hPT]
  have hgen : generate_markdown_table results questions true =
      headerLine ++ "\n" ++ restStr := by
    have hgen0 : generate_markdown_table results questions true =
        pyJoin " | " (tableHeaders questions) ++ "\n" ++
          (pyJoin " | " ((tableHeaders questions).map fun h =>
            String.mk (List.replicate h.length '-')) ++ "\n" ++
            String.join (results.map fun r => tableRow questions r ++ "\n")) := by
      unfold generate_markdown_table
      rw [if_neg (by simp [hres]), if_pos rfl]
      simp [String.append_assoc]
    rw [hgen0, hHL, hRS]
  have hnlHL : '\n' ∉ headerLine.data := by
    rw [← hHL]
    exact pyJoin_no_char (by decide) (tableHeaders_no_newline questions)
  have hdata : (generate_markdown_table results questions true).data =
      headerLine.data ++ '\n' :: restStr.data := by
    rw [hgen]
    simp [String.data_append]
  have hstart : ∃ l2, headerLine.data = 'P' :: l2 := by
    rw [hHLdata, hTH, intercalate_cons_cons₂]
    exact ⟨_, rfl⟩
  obtain ⟨l2, hl2⟩ := hstart
  have hnonempty : (generate_markdown_table results questions true).data.isEmpty
      = false := by
    rw [hdata, hl2]
    rfl
  unfold extract_questions_from_content
  rw [if_neg (by simp [hnonempty])]
  have hsplit1 : pySplitChar '\n' (generate_markdown_table results questions true)
      = headerLine :: (restStr.data.splitOn '\n').map String.mk := by
    unfold pySplitChar
    rw [hdata]
    rw [show List.splitOn '\n' (headerLine.data ++ '\n' :: restStr.data) =
        headerLine.data :: restStr.data.splitOn '\n' from
      List.splitOnP_first _ _ (fun a ha => by
        simp only [beq_iff_eq]
        rintro rfl
        exact hnlHL ha) '\n' (by simp) _]
    rfl
  rw [hsplit1]
  simp only [List.headD_cons]
  have hpipe : ∀ x ∈ ('P' :: "aper Title".data) :: "arXiv Link".data ::
      (questions.map pyReplaceNl).map String.data, '|' ∉ x := by
    intro x hx
    rcases List.mem_cons.mp hx with rfl | hx2
    · decide
    · rcases List.mem_cons.mp hx2 with rfl | hx3
      · decide
      · obtain ⟨s, hs, rfl⟩ := List.mem_map.mp hx3
        obtain ⟨q, hqq, rfl⟩ := List.mem_map.mp hs
        exact replaceNl_no_pipe (hq q hqq).1
  have hheaders : (pySplitChar '|' (pyStrip headerLine)).map pyStrip =
      (tableHeaders questions).map pyStrip := by
    have happ := pySplit_strip_header headerLine 'P' ("aper Title".data)
      ("arXiv Link".data :: (questions.map pyReplaceNl).map String.data)
      (by rw [hHLdata, hTH]) hpipe rfl
    rw [happ, ← hTH, List.map_map]
    rfl
  rw [hheaders]
  have hlen : ((tableHeaders questions).map pyStrip).length ≥ 2 := by
    simp [tableHeaders]
  rw [if_pos hlen]
  have hdrop : ((tableHeaders questions).map pyStrip).drop 2 =
      questions.map normalizeQuestion := by
    show (("Paper Title" :: "arXiv Link" :: questions.map pyReplaceNl).map
      pyStrip).drop 2 = _
    rw [List.map_cons, List.map_cons, List.drop_succ_cons, List.drop_succ_cons,
      List.drop_zero, List.map_map]
    rfl
  rw [hdrop]
  rw [List.filter_eq_self.mpr]
  intro a ha
  obtain ⟨q, hqq, rfl⟩ := List.mem_map.mp ha
  simpa using (hq q hqq).2

/-- **C7 (counterexample).** A question containing a pipe character does not
round-trip: writing a store with the single question `"a|b"` and re-parsing
its header recovers `["a", "b"]`, not the original (normalized) question
list. -/
theorem c7_counterexample :
    extract_questions_from_content
        (generate_markdown_table [⟨"T", "u", [("a|b", "x")], [], none, []⟩]
          ["a|b"] true) = ["a", "b"] ∧
    ["a", "b"] ≠ ["a|b"].map normalizeQuestion := by
  refine ⟨by decide, by decide⟩

/-- Witness for C7 (amended) at a concrete pipe-free question list. -/
theorem c7_header_roundtrip_witness :
    extract_questions_from_content
        (generate_markdown_table [⟨"T", "u", [("Q1", "x")], [], none, []⟩]
          ["Q1"] true) = ["Q1"] := by
  have h := c7_header_roundtrip [⟨"T", "u", [("Q1", "x")], [], none, []⟩]
    ["Q1"] (by simp)
    (by intro q hqmem
        rcases List.mem_singleton.mp hqmem with rfl
        exact ⟨by decide, by decide⟩)
  rw [h]
  decide

end CIPhR
